import Mathlib

set_option maxRecDepth 20000
set_option maxHeartbeats 1000000

/-
Shallow embedding of the cambridgescript front end (scanner.rs, parser.rs,
ast/expr.rs) together with theorems checking the design document's claims
about it.  Rust machine integers are modelled as Int with explicit range
checks where the code's behaviour depends on them; fallible operations
return Option or an explicit result sum; a Rust panic (unwrap on None,
unimplemented!) is a distinguished result constructor.  The scanner's
character iterator is modelled by threading the remaining source as an
explicit list, so every definition is executable by the kernel.
-/

/- ===== scanner.rs : data model ===== -/

structure Location where
  line : Nat
  column : Nat
  deriving DecidableEq

def Location.new : Location := ⟨1, 1⟩

def Location.increment_column (l : Location) : Location := ⟨l.line, l.column + 1⟩

def Location.increment_line (l : Location) : Location := ⟨l.line + 1, 1⟩

inductive TokenType where
  | Procedure | EndProcedure
  | Function | Returns | EndFunction | Return
  | If | Then | Else | EndIf
  | Case | Otherwise | EndCase
  | For | To | Step | Next
  | Repeat | Until
  | While | Do | EndWhile
  | Declare | Constant
  | Input | Output | Call
  | OpenFile | ReadFile | WriteFile | CloseFile
  | Read | Write
  | Integer | Real | Char | String | Boolean
  | Array | Of
  | And | Or | Not
  | LParen | RParen | LBracket | RBracket
  | Plus | Minus | Star | Slash | Caret
  | Equal | NotEqual | LessEqual | GreaterEqual | Less | Greater
  | Comma | Colon | LArrow
  | Identifier (spelling : List Char)
  | CharLiteral (c : Char)
  | StringLiteral (s : List Char)
  | IntegerLiteral (i : Int)
  | RealLiteral (r : Rat)
  | BooleanLiteral (b : Bool)
  | Whitespace | Comment

/- Decidable equality for TokenType (Rust's derived PartialEq), written by
hand through an injective encoding because the automatically derived
instance for a 66-constructor inductive is one enormous definition; encTT
is injective since decTT inverts it. -/

def encTT : TokenType → Nat × List Char × Char × Int × Rat × Bool
  | .Procedure => (0, [], 'a', 0, 0, false)
  | .EndProcedure => (1, [], 'a', 0, 0, false)
  | .Function => (2, [], 'a', 0, 0, false)
  | .Returns => (3, [], 'a', 0, 0, false)
  | .EndFunction => (4, [], 'a', 0, 0, false)
  | .Return => (5, [], 'a', 0, 0, false)
  | .If => (6, [], 'a', 0, 0, false)
  | .Then => (7, [], 'a', 0, 0, false)
  | .Else => (8, [], 'a', 0, 0, false)
  | .EndIf => (9, [], 'a', 0, 0, false)
  | .Case => (10, [], 'a', 0, 0, false)
  | .Otherwise => (11, [], 'a', 0, 0, false)
  | .EndCase => (12, [], 'a', 0, 0, false)
  | .For => (13, [], 'a', 0, 0, false)
  | .To => (14, [], 'a', 0, 0, false)
  | .Step => (15, [], 'a', 0, 0, false)
  | .Next => (16, [], 'a', 0, 0, false)
  | .Repeat => (17, [], 'a', 0, 0, false)
  | .Until => (18, [], 'a', 0, 0, false)
  | .While => (19, [], 'a', 0, 0, false)
  | .Do => (20, [], 'a', 0, 0, false)
  | .EndWhile => (21, [], 'a', 0, 0, false)
  | .Declare => (22, [], 'a', 0, 0, false)
  | .Constant => (23, [], 'a', 0, 0, false)
  | .Input => (24, [], 'a', 0, 0, false)
  | .Output => (25, [], 'a', 0, 0, false)
  | .Call => (26, [], 'a', 0, 0, false)
  | .OpenFile => (27, [], 'a', 0, 0, false)
  | .ReadFile => (28, [], 'a', 0, 0, false)
  | .WriteFile => (29, [], 'a', 0, 0, false)
  | .CloseFile => (30, [], 'a', 0, 0, false)
  | .Read => (31, [], 'a', 0, 0, false)
  | .Write => (32, [], 'a', 0, 0, false)
  | .Integer => (33, [], 'a', 0, 0, false)
  | .Real => (34, [], 'a', 0, 0, false)
  | .Char => (35, [], 'a', 0, 0, false)
  | .String => (36, [], 'a', 0, 0, false)
  | .Boolean => (37, [], 'a', 0, 0, false)
  | .Array => (38, [], 'a', 0, 0, false)
  | .Of => (39, [], 'a', 0, 0, false)
  | .And => (40, [], 'a', 0, 0, false)
  | .Or => (41, [], 'a', 0, 0, false)
  | .Not => (42, [], 'a', 0, 0, false)
  | .LParen => (43, [], 'a', 0, 0, false)
  | .RParen => (44, [], 'a', 0, 0, false)
  | .LBracket => (45, [], 'a', 0, 0, false)
  | .RBracket => (46, [], 'a', 0, 0, false)
  | .Plus => (47, [], 'a', 0, 0, false)
  | .Minus => (48, [], 'a', 0, 0, false)
  | .Star => (49, [], 'a', 0, 0, false)
  | .Slash => (50, [], 'a', 0, 0, false)
  | .Caret => (51, [], 'a', 0, 0, false)
  | .Equal => (52, [], 'a', 0, 0, false)
  | .NotEqual => (53, [], 'a', 0, 0, false)
  | .LessEqual => (54, [], 'a', 0, 0, false)
  | .GreaterEqual => (55, [], 'a', 0, 0, false)
  | .Less => (56, [], 'a', 0, 0, false)
  | .Greater => (57, [], 'a', 0, 0, false)
  | .Comma => (58, [], 'a', 0, 0, false)
  | .Colon => (59, [], 'a', 0, 0, false)
  | .LArrow => (68, [], 'a', 0, 0, false)
  | .Identifier s => (60, s, 'a', 0, 0, false)
  | .CharLiteral c => (61, [], c, 0, 0, false)
  | .StringLiteral s => (62, s, 'a', 0, 0, false)
  | .IntegerLiteral i => (63, [], 'a', i, 0, false)
  | .RealLiteral r => (64, [], 'a', 0, r, false)
  | .BooleanLiteral b => (65, [], 'a', 0, 0, b)
  | .Whitespace => (66, [], 'a', 0, 0, false)
  | .Comment => (67, [], 'a', 0, 0, false)

def decTT : Nat × List Char × Char × Int × Rat × Bool → Option TokenType
  | (0, _, _, _, _, _) => some .Procedure
  | (1, _, _, _, _, _) => some .EndProcedure
  | (2, _, _, _, _, _) => some .Function
  | (3, _, _, _, _, _) => some .Returns
  | (4, _, _, _, _, _) => some .EndFunction
  | (5, _, _, _, _, _) => some .Return
  | (6, _, _, _, _, _) => some .If
  | (7, _, _, _, _, _) => some .Then
  | (8, _, _, _, _, _) => some .Else
  | (9, _, _, _, _, _) => some .EndIf
  | (10, _, _, _, _, _) => some .Case
  | (11, _, _, _, _, _) => some .Otherwise
  | (12, _, _, _, _, _) => some .EndCase
  | (13, _, _, _, _, _) => some .For
  | (14, _, _, _, _, _) => some .To
  | (15, _, _, _, _, _) => some .Step
  | (16, _, _, _, _, _) => some .Next
  | (17, _, _, _, _, _) => some .Repeat
  | (18, _, _, _, _, _) => some .Until
  | (19, _, _, _, _, _) => some .While
  | (20, _, _, _, _, _) => some .Do
  | (21, _, _, _, _, _) => some .EndWhile
  | (22, _, _, _, _, _) => some .Declare
  | (23, _, _, _, _, _) => some .Constant
  | (24, _, _, _, _, _) => some .Input
  | (25, _, _, _, _, _) => some .Output
  | (26, _, _, _, _, _) => some .Call
  | (27, _, _, _, _, _) => some .OpenFile
  | (28, _, _, _, _, _) => some .ReadFile
  | (29, _, _, _, _, _) => some .WriteFile
  | (30, _, _, _, _, _) => some .CloseFile
  | (31, _, _, _, _, _) => some .Read
  | (32, _, _, _, _, _) => some .Write
  | (33, _, _, _, _, _) => some .Integer
  | (34, _, _, _, _, _) => some .Real
  | (35, _, _, _, _, _) => some .Char
  | (36, _, _, _, _, _) => some .String
  | (37, _, _, _, _, _) => some .Boolean
  | (38, _, _, _, _, _) => some .Array
  | (39, _, _, _, _, _) => some .Of
  | (40, _, _, _, _, _) => some .And
  | (41, _, _, _, _, _) => some .Or
  | (42, _, _, _, _, _) => some .Not
  | (43, _, _, _, _, _) => some .LParen
  | (44, _, _, _, _, _) => some .RParen
  | (45, _, _, _, _, _) => some .LBracket
  | (46, _, _, _, _, _) => some .RBracket
  | (47, _, _, _, _, _) => some .Plus
  | (48, _, _, _, _, _) => some .Minus
  | (49, _, _, _, _, _) => some .Star
  | (50, _, _, _, _, _) => some .Slash
  | (51, _, _, _, _, _) => some .Caret
  | (52, _, _, _, _, _) => some .Equal
  | (53, _, _, _, _, _) => some .NotEqual
  | (54, _, _, _, _, _) => some .LessEqual
  | (55, _, _, _, _, _) => some .GreaterEqual
  | (56, _, _, _, _, _) => some .Less
  | (57, _, _, _, _, _) => some .Greater
  | (58, _, _, _, _, _) => some .Comma
  | (59, _, _, _, _, _) => some .Colon
  | (68, _, _, _, _, _) => some .LArrow
  | (60, s, _, _, _, _) => some (.Identifier s)
  | (61, _, c, _, _, _) => some (.CharLiteral c)
  | (62, s, _, _, _, _) => some (.StringLiteral s)
  | (63, _, _, i, _, _) => some (.IntegerLiteral i)
  | (64, _, _, _, r, _) => some (.RealLiteral r)
  | (65, _, _, _, _, b) => some (.BooleanLiteral b)
  | (66, _, _, _, _, _) => some .Whitespace
  | (67, _, _, _, _, _) => some .Comment
  | _ => none

theorem decTT_encTT (t : TokenType) : decTT (encTT t) = some t := by
  cases t <;> rfl

instance : DecidableEq TokenType := fun a b =>
  if h : encTT a = encTT b then
    isTrue (by
      have h2 := congrArg decTT h
      rw [decTT_encTT, decTT_encTT] at h2
      exact Option.some_inj.mp h2)
  else isFalse fun he => h (congrArg encTT he)

inductive ScannerError where
  | InvalidCharLiteral (loc : Location)
  | UnterminatedString (loc : Location)
  | InvalidRealLiteral (loc : Location)
  | UnexpectedCharacter (c : Char) (loc : Location)
  deriving DecidableEq

structure Token where
  type_ : TokenType
  lexeme : List Char
  location : Location
  deriving DecidableEq

/- ===== scanner.rs : character classes (char::is_ascii_*) ===== -/

def isAsciiDigit (c : Char) : Bool := 48 ≤ c.toNat && c.toNat ≤ 57

def isAsciiAlphabetic (c : Char) : Bool :=
  (65 ≤ c.toNat && c.toNat ≤ 90) || (97 ≤ c.toNat && c.toNat ≤ 122)

def isAsciiWhitespace (c : Char) : Bool :=
  (c.toNat == 32) || (c.toNat == 9) || (c.toNat == 10) || (c.toNat == 12) || (c.toNat == 13)

/- ===== scanner.rs : Scanner state and primitive cursor operations =====
The Rust Scanner owns a Peekable<Chars>; here the remaining source is an
explicit list argument and the struct keeps cur_lexeme and cur_location. -/

structure ScanSt where
  cur_lexeme : List Char
  cur_location : Location
  deriving DecidableEq

def consumeChar (c : Char) (st : ScanSt) : ScanSt :=
  { cur_lexeme := st.cur_lexeme ++ [c],
    cur_location :=
      if c = '\n' then st.cur_location.increment_line else st.cur_location.increment_column }

def check_next (cond : Char → Bool) : List Char → Bool
  | [] => false
  | c :: _ => cond c

def advance : List Char → ScanSt → Option (Char × List Char × ScanSt)
  | [], _ => none
  | c :: rest, st => some (c, rest, consumeChar c st)

def advance_if_match (target : Char) (src : List Char) (st : ScanSt) :
    Bool × List Char × ScanSt :=
  match src with
  | [] => (false, src, st)
  | c :: rest => if c = target then (true, rest, consumeChar c st) else (false, c :: rest, st)

def advance_while (cond : Char → Bool) : List Char → ScanSt → List Char × ScanSt
  | [], st => ([], st)
  | c :: rest, st =>
      if cond c then advance_while cond rest (consumeChar c st) else (c :: rest, st)

/- ===== scanner.rs : numeric lexeme conversion =====
str::parse::<i64> is modelled exactly on the lexeme shapes the scanner can
produce: optional leading minus, then decimal digits, failing outside the
64-bit signed range.  str::parse::<f64> never fails on such shapes; its
value is modelled as the exact decimal (the Rust code stores the nearest
f64; no claim inspects a real literal's value). -/

def digitsValFrom (acc : Nat) : List Char → Nat
  | [] => acc
  | c :: rest => digitsValFrom (acc * 10 + (c.toNat - 48)) rest

def digitsVal (l : List Char) : Nat := digitsValFrom 0 l

def allDigits (l : List Char) : Bool := l.all isAsciiDigit

def parseI64 (s : List Char) : Option Int :=
  match s with
  | '-' :: rest =>
      if rest ≠ [] ∧ allDigits rest then
        if (digitsVal rest : Int) ≤ 2 ^ 63 then some (-(digitsVal rest : Int)) else none
      else none
  | _ =>
      if s ≠ [] ∧ allDigits s then
        if (digitsVal s : Int) ≤ 2 ^ 63 - 1 then some ((digitsVal s : Int)) else none
      else none

def parseF64Mag (s : List Char) : Option Rat :=
  let ip := s.takeWhile isAsciiDigit
  match s.drop ip.length with
  | [] => if ip = [] then none else some ((digitsVal ip : Rat))
  | '.' :: fp =>
      if ip ≠ [] ∧ fp ≠ [] ∧ allDigits fp then
        some ((digitsVal ip : Rat) + (digitsVal fp : Rat) / ((10 : Rat) ^ fp.length))
      else none
  | _ => none

def parseF64 (s : List Char) : Option Rat :=
  match s with
  | '-' :: rest => (parseF64Mag rest).map (fun q => -q)
  | _ => parseF64Mag s

/- ===== scanner.rs : token classification routines ===== -/

inductive LexOut where
  | ok (tt : TokenType)
  | err (e : ScannerError)
  | panicked
  deriving DecidableEq

def number (src : List Char) (st : ScanSt) : LexOut × List Char × ScanSt :=
  let r := advance_while isAsciiDigit src st
  match advance_if_match '.' r.1 r.2 with
  | (true, src₂, st₂) =>
      if check_next isAsciiDigit src₂ then
        let r₃ := advance_while isAsciiDigit src₂ st₂
        match parseF64 r₃.2.cur_lexeme with
        | some q => (.ok (.RealLiteral q), r₃.1, r₃.2)
        | none => (.panicked, r₃.1, r₃.2)
      else (.err (.InvalidRealLiteral st₂.cur_location), src₂, st₂)
  | (false, src₂, st₂) =>
      match parseI64 st₂.cur_lexeme with
      | some v => (.ok (.IntegerLiteral v), src₂, st₂)
      | none => (.panicked, src₂, st₂)

def charLit (src : List Char) (st : ScanSt) : LexOut × List Char × ScanSt :=
  match advance src st with
  | none => (.err (.InvalidCharLiteral st.cur_location), src, st)
  | some (c, src₁, st₁) =>
      match advance_if_match '\'' src₁ st₁ with
      | (true, src₂, st₂) => (.ok (.CharLiteral c), src₂, st₂)
      | (false, src₂, st₂) => (.err (.InvalidCharLiteral st₂.cur_location), src₂, st₂)

def stringLit (src : List Char) (st : ScanSt) : LexOut × List Char × ScanSt :=
  let r := advance_while (fun c => !(c == '"') && !(c == '\n')) src st
  match advance_if_match '"' r.1 r.2 with
  | (false, src₂, st₂) => (.err (.UnterminatedString st₂.cur_location), src₂, st₂)
  | (true, src₂, st₂) => (.ok (.StringLiteral ((st₂.cur_lexeme.drop 1).dropLast)), src₂, st₂)

def keyword_lookup (lex : List Char) : TokenType :=
  match String.mk lex with
  | "PROCEDURE" => .Procedure
  | "ENDPROCEDURE" => .EndProcedure
  | "FUNCTION" => .Function
  | "RETURNS" => .Returns
  | "ENDFUNCTION" => .EndFunction
  | "RETURN" => .Return
  | "IF" => .If
  | "THEN" => .Then
  | "ELSE" => .Else
  | "ENDIF" => .EndIf
  | "CASE" => .Case
  | "OTHERWISE" => .Otherwise
  | "ENDCASE" => .EndCase
  | "FOR" => .For
  | "TO" => .To
  | "STEP" => .Step
  | "NEXT" => .Next
  | "REPEAT" => .Repeat
  | "UNTIL" => .Until
  | "WHILE" => .While
  | "DO" => .Do
  | "ENDWHILE" => .EndWhile
  | "DECLARE" => .Declare
  | "CONSTANT" => .Constant
  | "INPUT" => .Input
  | "OUTPUT" => .Output
  | "CALL" => .Call
  | "OPENFILE" => .OpenFile
  | "READFILE" => .ReadFile
  | "WRITEFILE" => .WriteFile
  | "CLOSEFILE" => .CloseFile
  | "READ" => .Read
  | "WRITE" => .Write
  | "INTEGER" => .Integer
  | "REAL" => .Real
  | "CHAR" => .Char
  | "STRING" => .String
  | "BOOLEAN" => .Boolean
  | "ARRAY" => .Array
  | "OF" => .Of
  | "TRUE" => .BooleanLiteral true
  | "FALSE" => .BooleanLiteral false
  | "AND" => .And
  | "OR" => .Or
  | "NOT" => .Not
  | _ => .Identifier lex

/- ===== scanner.rs : Scanner::scan_next per-character dispatch ===== -/

def scan_dispatch (c : Char) (src₁ : List Char) (st₁ : ScanSt) : LexOut × List Char × ScanSt :=
  if c = '(' then (.ok .LParen, src₁, st₁)
  else if c = ')' then (.ok .RParen, src₁, st₁)
  else if c = '[' then (.ok .LBracket, src₁, st₁)
  else if c = ']' then (.ok .RBracket, src₁, st₁)
  else if c = '+' then (.ok .Plus, src₁, st₁)
  else if c = '-' then
    (if check_next isAsciiDigit src₁ then number src₁ st₁ else (.ok .Minus, src₁, st₁))
  else if c = '*' then (.ok .Star, src₁, st₁)
  else if c = '/' then
    (match advance_if_match '/' src₁ st₁ with
     | (true, src₂, st₂) =>
        let r := advance_while (fun ch => !(ch == '\n')) src₂ st₂
        (.ok .Comment, r.1, r.2)
     | (false, src₂, st₂) => (.ok .Slash, src₂, st₂))
  else if c = '^' then (.ok .Caret, src₁, st₁)
  else if c = '=' then (.ok .Equal, src₁, st₁)
  else if c = '>' then
    (match advance_if_match '=' src₁ st₁ with
     | (true, src₂, st₂) => (.ok .GreaterEqual, src₂, st₂)
     | (false, src₂, st₂) => (.ok .Greater, src₂, st₂))
  else if c = '<' then
    (match advance_if_match '=' src₁ st₁ with
     | (true, src₂, st₂) => (.ok .LessEqual, src₂, st₂)
     | (false, src₂, st₂) =>
       match advance_if_match '>' src₂ st₂ with
       | (true, src₃, st₃) => (.ok .NotEqual, src₃, st₃)
       | (false, src₃, st₃) =>
         match advance_if_match '-' src₃ st₃ with
         | (true, src₄, st₄) => (.ok .LArrow, src₄, st₄)
         | (false, src₄, st₄) => (.ok .Less, src₄, st₄))
  else if c = ',' then (.ok .Comma, src₁, st₁)
  else if c = ':' then (.ok .Colon, src₁, st₁)
  else if c = '\'' then charLit src₁ st₁
  else if c = '"' then stringLit src₁ st₁
  else if isAsciiAlphabetic c then
    (let r := advance_while isAsciiAlphabetic src₁ st₁
     (.ok (keyword_lookup r.2.cur_lexeme), r.1, r.2))
  else if isAsciiDigit c then number src₁ st₁
  else if isAsciiWhitespace c then
    (let r := advance_while isAsciiWhitespace src₁ st₁
     (.ok .Whitespace, r.1, r.2))
  else (.err (.UnexpectedCharacter c st₁.cur_location), src₁, st₁)

inductive SRes where
  | tok (t : Token)
  | err (e : ScannerError)
  | panicked
  deriving DecidableEq

def scan_next (src : List Char) (st : ScanSt) : Option (SRes × List Char × ScanSt) :=
  let location := st.cur_location
  match advance src { cur_lexeme := [], cur_location := st.cur_location } with
  | none => none
  | some (c, src₁, st₁) =>
    match scan_dispatch c src₁ st₁ with
    | (.ok tt, src₂, st₂) => some (.tok ⟨tt, st₂.cur_lexeme, location⟩, src₂, st₂)
    | (.err e, src₂, st₂) => some (.err e, src₂, st₂)
    | (.panicked, src₂, st₂) => some (.panicked, src₂, st₂)

/- ===== scanner.rs : TokenStream iteration and the scan entry point =====
The fuel argument only bounds the number of scan_next calls; scan supplies
length + 1 which always suffices because every scan_next call consumes at
least one character.  The result is none exactly when a panic occurred (or
fuel ran out, which the supplied fuel rules out). -/

def scan_go (ignore_irrelevant : Bool) :
    Nat → List Char → ScanSt → Option (List Token × List ScannerError)
  | 0, _, _ => none
  | fuel + 1, src, st =>
    match scan_next src st with
    | none => some ([], [])
    | some (.tok t, src₁, st₁) =>
      if ignore_irrelevant ∧ (t.type_ = .Whitespace ∨ t.type_ = .Comment) then
        scan_go ignore_irrelevant fuel src₁ st₁
      else
        (scan_go ignore_irrelevant fuel src₁ st₁).map (fun p => (t :: p.1, p.2))
    | some (.err e, src₁, st₁) =>
      (scan_go ignore_irrelevant fuel src₁ st₁).map (fun p => (p.1, e :: p.2))
    | some (.panicked, _, _) => none

def scan (source : List Char) : Option (List Token × List ScannerError) :=
  scan_go true (source.length + 1) source ⟨[], Location.new⟩

def scan_unfiltered (source : List Char) : Option (List Token × List ScannerError) :=
  scan_go false (source.length + 1) source ⟨[], Location.new⟩

/- ===== ast/expr.rs ===== -/

inductive BinaryOperator where
  | LogicAnd | LogicOr
  | Plus | Minus | Star | Slash
  | Equal | NotEqual | LessEqual | GreaterEqual | Less | Greater
  deriving DecidableEq

inductive UnaryOperator where
  | LogicNot
  deriving DecidableEq

inductive Literal where
  | Char (c : Char)
  | String (s : List Char)
  | Integer (i : Int)
  | Real (r : Rat)
  | Boolean (b : Bool)
  deriving DecidableEq

inductive Expr where
  | Binary (left : Expr) (operator : BinaryOperator) (right : Expr)
  | Unary (operator : UnaryOperator) (right : Expr)
  | FunctionCall (function : Expr) (args : List Expr)
  | ArrayIndex (array : Expr) (indexes : List Expr)
  | Identifier (handle : Nat)
  | Literal (l : Literal)

/- ===== statement-side AST =====
Modelled from the spec: the ast statement and type modules are not under
src (parser.rs imports them via crate::ast::*); their shapes follow spec
section 3 and the constructor applications in parser.rs.  The Rust field
named end is rendered end_. -/

inductive PrimitiveType where
  | Integer | Real | String | Char | Boolean
  deriving DecidableEq

inductive Typ where
  | Primitive (p : PrimitiveType)
  deriving DecidableEq

structure Parameter where
  name : Expr
  type_ : Typ

mutual
inductive Stmt where
  | ProcedureDecl (name : Expr) (params : Option (List Parameter)) (body : Block)
  | FunctionDecl (name : Expr) (params : Option (List Parameter)) (return_type : Typ) (body : Block)
  | VariableDecl (name : Expr) (type_ : Typ)
  | ConstantDecl (name : Expr) (value : Literal)
  | If (condition : Expr) (then_branch : Block) (else_branch : Option Block)
  | ForLoop (target : Expr) (start : Expr) (end_ : Expr) (step : Option Expr) (body : Block)
  | RepeatUntil (condition : Expr) (body : Block)
  | While (condition : Expr) (body : Block)
  | Return (e : Expr)
  | Input (es : List Expr)
  | Output (es : List Expr)
  | Assignment (target : Expr) (value : Expr)
inductive Block where
  | mk (contents : List Stmt)
end

/- ===== parser.rs : errors, results, TokenBuffer ===== -/

inductive ParserError where
  | UnexpectedToken (t : Token)
  | UnexpectedEOF
  deriving DecidableEq

inductive PRes (α : Type) where
  | ok (a : α)
  | err (e : ParserError)
  | panicked
  | fuelOut

structure TokenBuffer where
  items : List Token
  current : Nat

def TokenBuffer.current_token (b : TokenBuffer) : Option Token :=
  if h : b.current < b.items.length then some (b.items.get ⟨b.current, h⟩) else none

def TokenBuffer.peek (b : TokenBuffer) : Option TokenType :=
  b.current_token.map (fun t => t.type_)

def TokenBuffer.next (b : TokenBuffer) : Option TokenType × TokenBuffer :=
  match b.peek with
  | some t => (some t, { b with current := b.current + 1 })
  | none => (none, b)

/- Models the unexpected_token! macro, including the panic of
current_token().unwrap() when the buffer is at end of input. -/
def unexpected_token (α : Type) (b : TokenBuffer) : PRes α :=
  match b.current_token with
  | some t => .err (.UnexpectedToken t)
  | none => .panicked

def TokenBuffer.consume (b : TokenBuffer) (type_ : TokenType) : PRes Unit × TokenBuffer :=
  match b.peek with
  | none => (.err .UnexpectedEOF, b)
  | some t =>
    if t = type_ then (.ok (), (b.next).2)
    else (unexpected_token Unit b, b)

def TokenBuffer.next_if_equal (b : TokenBuffer) (other : TokenType) : Option TokenType × TokenBuffer :=
  match b.peek with
  | none => (none, b)
  | some t => if t = other then b.next else (none, b)

def TokenBuffer.backtrack (b : TokenBuffer) : TokenBuffer :=
  if 0 < b.current then { b with current := b.current - 1 } else b

/- ===== parser.rs : Parser state (identifier interner + buffer) =====
The HashMap<Rc<str>, usize> is modelled as an association list; insert is
only ever called on an absent key, and HashMap::len is the entry count. -/

def lookupIdent : List (List Char × Nat) → List Char → Option Nat
  | [], _ => none
  | (k, v) :: rest, s => if k = s then some v else lookupIdent rest s

def get_ident_handle (m : List (List Char × Nat)) (ident : List Char) :
    Nat × List (List Char × Nat) :=
  match lookupIdent m ident with
  | some h => (h, m)
  | none => (m.length, m ++ [(ident, m.length)])

def internList : List (List Char × Nat) → List (List Char) → List Nat × List (List Char × Nat)
  | m, [] => ([], m)
  | m, x :: xs =>
      let r := get_ident_handle m x
      let r2 := internList r.2 xs
      (r.1 :: r2.1, r2.2)

def handlesOf (ids : List (List Char)) : List Nat := (internList [] ids).1

structure PSt where
  identifier_map : List (List Char × Nat)
  buf : TokenBuffer

def PSt.peek (st : PSt) : Option TokenType := st.buf.peek

def PSt.next (st : PSt) : Option TokenType × PSt :=
  let r := st.buf.next
  (r.1, { st with buf := r.2 })

def PSt.advanceTok (st : PSt) : PSt := (st.next).2

def PSt.consume (st : PSt) (type_ : TokenType) : PRes Unit × PSt :=
  let r := st.buf.consume type_
  (r.1, { st with buf := r.2 })

def PSt.next_if_equal (st : PSt) (other : TokenType) : Option TokenType × PSt :=
  let r := st.buf.next_if_equal other
  (r.1, { st with buf := r.2 })

def PSt.backtrack (st : PSt) : PSt := { st with buf := st.buf.backtrack }

/- Error propagation of the ? operator. -/
def pbind {α β : Type} (r : PRes α × PSt) (f : α → PSt → PRes β × PSt) : PRes β × PSt :=
  match r with
  | (.ok a, st) => f a st
  | (.err e, st) => (.err e, st)
  | (.panicked, st) => (.panicked, st)
  | (.fuelOut, st) => (.fuelOut, st)

def pconsRes {α : Type} (e : α) (r : PRes (List α) × PSt) : PRes (List α) × PSt :=
  match r with
  | (.ok es, st) => (.ok (e :: es), st)
  | other => other

/- ===== parser.rs : comma_separated macro (both forms) ===== -/

def comma_separated {α : Type} (g : PSt → PRes α × PSt) : Nat → PSt → PRes (List α) × PSt
  | 0, st => (.fuelOut, st)
  | fuel + 1, st =>
    pbind (g st) fun e st₁ =>
      match st₁.peek with
      | some .Comma => pconsRes e (comma_separated g fuel st₁.advanceTok)
      | some _ => (.ok [e], st₁)
      | none => (.err .UnexpectedEOF, st₁)

def comma_separated_end_loop {α : Type} (g : PSt → PRes α × PSt) (endT : TokenType) :
    Nat → PSt → PRes (List α) × PSt
  | 0, st => (.fuelOut, st)
  | fuel + 1, st =>
    pbind (g st) fun e st₁ =>
      match st₁.next with
      | (some tt, st₂) =>
        if tt = endT then (.ok [e], st₂)
        else if tt = .Comma then pconsRes e (comma_separated_end_loop g endT fuel st₂)
        else
          let st₃ := st₂.backtrack
          (unexpected_token (List α) st₃.buf, st₃)
      | (none, st₂) => (.err .UnexpectedEOF, st₂)

def comma_separated_end {α : Type} (g : PSt → PRes α × PSt) (endT : TokenType)
    (fuel : Nat) (st : PSt) : PRes (List α) × PSt :=
  match st.next_if_equal endT with
  | (some _, st₁) => (.ok [], st₁)
  | (none, st₁) => comma_separated_end_loop g endT fuel st₁

/- ===== parser.rs : expression grammar =====
Each function is parameterized by pe, the full-expression entry used for
parenthesized sub-expressions and list elements; fuel bounds loop
iterations and the NOT recursion.  parse_expressionN ties the knot. -/

def parse_primaryF (pe : PSt → PRes Expr × PSt) (st : PSt) : PRes Expr × PSt :=
  match st.next with
  | (none, st₁) => (.err .UnexpectedEOF, st₁)
  | (some tt, st₁) =>
    match tt with
    | .Identifier ident =>
        let r := get_ident_handle st₁.identifier_map ident
        (.ok (.Identifier r.1), { st₁ with identifier_map := r.2 })
    | .CharLiteral c => (.ok (.Literal (.Char c)), st₁)
    | .StringLiteral s => (.ok (.Literal (.String s)), st₁)
    | .IntegerLiteral i => (.ok (.Literal (.Integer i)), st₁)
    | .RealLiteral r => (.ok (.Literal (.Real r)), st₁)
    | .BooleanLiteral b => (.ok (.Literal (.Boolean b)), st₁)
    | .LParen =>
        pbind (pe st₁) fun inner st₂ =>
        pbind (st₂.consume .RParen) fun _ st₃ =>
          (.ok inner, st₃)
    | _ =>
        let st₂ := st₁.backtrack
        (unexpected_token Expr st₂.buf, st₂)

def parse_call_loop (pe : PSt → PRes Expr × PSt) : Nat → Expr → PSt → PRes Expr × PSt
  | 0, _, st => (.fuelOut, st)
  | fuel + 1, left, st =>
    match st.next with
    | (some .LParen, st₁) =>
        pbind (comma_separated_end pe .RParen fuel st₁) fun args st₂ =>
          parse_call_loop pe fuel (.FunctionCall left args) st₂
    | (some .LBracket, st₁) =>
        pbind (comma_separated_end pe .RBracket fuel st₁) fun idxs st₂ =>
          parse_call_loop pe fuel (.ArrayIndex left idxs) st₂
    | (_, st₁) => (.ok left, st₁.backtrack)

def parse_callF (pe : PSt → PRes Expr × PSt) (fuel : Nat) (st : PSt) : PRes Expr × PSt :=
  pbind (parse_primaryF pe st) fun left st₁ => parse_call_loop pe fuel left st₁

def binary_op_loop (parent : PSt → PRes Expr × PSt) (opOf : TokenType → Option BinaryOperator) :
    Nat → Expr → PSt → PRes Expr × PSt
  | 0, _, st => (.fuelOut, st)
  | fuel + 1, left, st =>
    match st.peek with
    | some tt =>
      match opOf tt with
      | some op =>
        pbind (parent st.advanceTok) fun right st₂ =>
          binary_op_loop parent opOf fuel (.Binary left op right) st₂
      | none => (.ok left, st)
    | none => (.ok left, st)

def binary_op (parent : PSt → PRes Expr × PSt) (opOf : TokenType → Option BinaryOperator)
    (fuel : Nat) (st : PSt) : PRes Expr × PSt :=
  pbind (parent st) fun left st₁ => binary_op_loop parent opOf fuel left st₁

def factorOp : TokenType → Option BinaryOperator
  | .Star => some .Star
  | .Slash => some .Slash
  | _ => none

def termOp : TokenType → Option BinaryOperator
  | .Plus => some .Plus
  | .Minus => some .Minus
  | _ => none

def cmpOp : TokenType → Option BinaryOperator
  | .Equal => some .Equal
  | .NotEqual => some .NotEqual
  | .Less => some .Less
  | .LessEqual => some .LessEqual
  | .Greater => some .Greater
  | .GreaterEqual => some .GreaterEqual
  | _ => none

def andOp : TokenType → Option BinaryOperator
  | .And => some .LogicAnd
  | _ => none

def orOp : TokenType → Option BinaryOperator
  | .Or => some .LogicOr
  | _ => none

def parse_factorF (pe : PSt → PRes Expr × PSt) (fuel : Nat) : PSt → PRes Expr × PSt :=
  binary_op (parse_callF pe fuel) factorOp fuel

def parse_termF (pe : PSt → PRes Expr × PSt) (fuel : Nat) : PSt → PRes Expr × PSt :=
  binary_op (parse_factorF pe fuel) termOp fuel

def parse_comparisonF (pe : PSt → PRes Expr × PSt) (fuel : Nat) : PSt → PRes Expr × PSt :=
  binary_op (parse_termF pe fuel) cmpOp fuel

def parse_logic_notF (pe : PSt → PRes Expr × PSt) : Nat → PSt → PRes Expr × PSt
  | 0, st => (.fuelOut, st)
  | fuel + 1, st =>
    match st.consume .Not with
    | (.ok _, st₁) =>
      pbind (parse_logic_notF pe fuel st₁) fun right st₂ =>
        (.ok (.Unary .LogicNot right), st₂)
    | (_, st₁) => parse_comparisonF pe fuel st₁

def parse_logic_andF (pe : PSt → PRes Expr × PSt) (fuel : Nat) : PSt → PRes Expr × PSt :=
  binary_op (parse_logic_notF pe fuel) andOp fuel

def parse_logic_orF (pe : PSt → PRes Expr × PSt) (fuel : Nat) : PSt → PRes Expr × PSt :=
  binary_op (parse_logic_andF pe fuel) orOp fuel

def parse_expressionN : Nat → PSt → PRes Expr × PSt
  | 0, st => (.fuelOut, st)
  | fuel + 1, st => parse_logic_orF (parse_expressionN fuel) fuel st

/- ===== parser.rs : types, identifiers, parameters, statements ===== -/

def parse_type (st : PSt) : PRes Typ × PSt :=
  match st.next with
  | (some .Integer, st₁) => (.ok (.Primitive .Integer), st₁)
  | (some .Real, st₁) => (.ok (.Primitive .Real), st₁)
  | (some .String, st₁) => (.ok (.Primitive .String), st₁)
  | (some .Char, st₁) => (.ok (.Primitive .Char), st₁)
  | (some .Boolean, st₁) => (.ok (.Primitive .Boolean), st₁)
  | (some .Array, st₁) => (.panicked, st₁)
  | (some _, st₁) =>
      let st₂ := st₁.backtrack
      (unexpected_token Typ st₂.buf, st₂)
  | (none, st₁) => (.err .UnexpectedEOF, st₁)

def parse_identifierF (pe : PSt → PRes Expr × PSt) (st : PSt) : PRes Expr × PSt :=
  pbind (parse_primaryF pe st) fun e st₁ =>
    match e with
    | .Identifier h => (.ok (.Identifier h), st₁)
    | _ => (unexpected_token Expr st₁.buf, st₁)

def parse_parameterF (pe : PSt → PRes Expr × PSt) (st : PSt) : PRes Parameter × PSt :=
  pbind (parse_identifierF pe st) fun name st₁ =>
  pbind (st₁.consume .Colon) fun _ st₂ =>
  pbind (parse_type st₂) fun ty st₃ =>
    (.ok ⟨name, ty⟩, st₃)

def parse_parameter_listF (pe : PSt → PRes Expr × PSt) (fuel : Nat) (st : PSt) :
    PRes (Option (List Parameter)) × PSt :=
  match st.next_if_equal .LParen with
  | (some _, st₁) =>
      pbind (comma_separated (parse_parameterF pe) fuel st₁) fun params st₂ =>
      pbind (st₂.consume .RParen) fun _ st₃ =>
        (.ok (some params), st₃)
  | (none, st₁) => (.ok none, st₁)

def parse_assignableF (pe : PSt → PRes Expr × PSt) (fuel : Nat) (st : PSt) : PRes Expr × PSt :=
  parse_callF pe fuel st

def parse_block_loop (pstmt : PSt → PRes Stmt × PSt) : Nat → List Stmt → PSt → PRes Block × PSt
  | 0, _, st => (.fuelOut, st)
  | fuel + 1, acc, st =>
    match pstmt st with
    | (.ok s, st₁) => parse_block_loop pstmt fuel (acc ++ [s]) st₁
    | (.err _, st₁) => (.ok (.mk acc), st₁)
    | (.panicked, st₁) => (.panicked, st₁)
    | (.fuelOut, st₁) => (.fuelOut, st₁)

def parse_stmtF (pe : PSt → PRes Expr × PSt) (pblock : PSt → PRes Block × PSt)
    (fuel : Nat) (st : PSt) : PRes Stmt × PSt :=
  match st.next with
  | (none, st₀) => (.err .UnexpectedEOF, st₀)
  | (some tt, st₁) =>
    match tt with
    | .Procedure =>
        pbind (parse_identifierF pe st₁) fun name st₂ =>
        pbind (parse_parameter_listF pe fuel st₂) fun params st₃ =>
        pbind (pblock st₃) fun body st₄ =>
        pbind (st₄.consume .EndProcedure) fun _ st₅ =>
          (.ok (.ProcedureDecl name params body), st₅)
    | .Function =>
        pbind (parse_identifierF pe st₁) fun name st₂ =>
        pbind (parse_parameter_listF pe fuel st₂) fun params st₃ =>
        pbind (st₃.consume .Returns) fun _ st₄ =>
        pbind (parse_type st₄) fun return_type st₅ =>
        pbind (pblock st₅) fun body st₆ =>
        pbind (st₆.consume .EndFunction) fun _ st₇ =>
          (.ok (.FunctionDecl name params return_type body), st₇)
    | .If =>
        pbind (pe st₁) fun condition st₂ =>
        pbind (st₂.consume .Then) fun _ st₃ =>
        pbind (pblock st₃) fun then_branch st₄ =>
          (match st₄.consume .Else with
           | (.ok _, st₅) =>
               pbind (pblock st₅) fun else_b st₆ =>
               pbind (st₆.consume .EndIf) fun _ st₇ =>
                 (.ok (.If condition then_branch (some else_b)), st₇)
           | (_, st₅) =>
               pbind (st₅.consume .EndIf) fun _ st₆ =>
                 (.ok (.If condition then_branch none), st₆))
    | .Return => pbind (pe st₁) fun e st₂ => (.ok (.Return e), st₂)
    | .Case => (.panicked, st₁)
    | .For =>
        pbind (parse_assignableF pe fuel st₁) fun target st₂ =>
        pbind (st₂.consume .LArrow) fun _ st₃ =>
        pbind (pe st₃) fun start st₄ =>
        pbind (st₄.consume .To) fun _ st₅ =>
        pbind (pe st₅) fun end_ st₆ =>
          (match st₆.consume .Step with
           | (.ok _, st₇) =>
               pbind (pe st₇) fun step st₈ =>
               pbind (pblock st₈) fun body st₉ =>
               pbind (st₉.consume .Next) fun _ st₁₀ =>
                 (.ok (.ForLoop target start end_ (some step) body), st₁₀)
           | (_, st₇) =>
               pbind (pblock st₇) fun body st₈ =>
               pbind (st₈.consume .Next) fun _ st₉ =>
                 (.ok (.ForLoop target start end_ none body), st₉))
    | .Repeat =>
        pbind (pblock st₁) fun body st₂ =>
        pbind (st₂.consume .Until) fun _ st₃ =>
        pbind (pe st₃) fun condition st₄ =>
          (.ok (.RepeatUntil condition body), st₄)
    | .While =>
        pbind (pe st₁) fun condition st₂ =>
        pbind (st₂.consume .Do) fun _ st₃ =>
        pbind (pblock st₃) fun body st₄ =>
        pbind (st₄.consume .EndWhile) fun _ st₅ =>
          (.ok (.While condition body), st₅)
    | .Declare =>
        pbind (parse_identifierF pe st₁) fun name st₂ =>
        pbind (st₂.consume .Colon) fun _ st₃ =>
        pbind (parse_type st₃) fun ty st₄ =>
          (.ok (.VariableDecl name ty), st₄)
    | .Constant =>
        pbind (parse_identifierF pe st₁) fun name st₂ =>
        pbind (st₂.consume .LArrow) fun _ st₃ =>
        pbind (parse_primaryF pe st₃) fun v st₄ =>
          (match v with
           | .Literal l => (.ok (.ConstantDecl name l), st₄)
           | _ => (unexpected_token Stmt st₄.buf, st₄))
    | .Input =>
        pbind (comma_separated pe fuel st₁) fun es st₂ => (.ok (.Input es), st₂)
    | .Output =>
        pbind (comma_separated pe fuel st₁) fun es st₂ => (.ok (.Output es), st₂)
    | .Call => (.panicked, st₁)
    | .OpenFile => (.panicked, st₁)
    | .ReadFile => (.panicked, st₁)
    | .WriteFile => (.panicked, st₁)
    | .CloseFile => (.panicked, st₁)
    | _ =>
        let st₂ := st₁.backtrack
        pbind (parse_assignableF pe fuel st₂) fun target st₃ =>
        pbind (st₃.consume .LArrow) fun _ st₄ =>
        pbind (pe st₄) fun value st₅ =>
          (.ok (.Assignment target value), st₅)

def parse_stmtN : Nat → PSt → PRes Stmt × PSt
  | 0, st => (.fuelOut, st)
  | fuel + 1, st =>
      parse_stmtF (parse_expressionN (fuel + 1)) (parse_block_loop (parse_stmtN fuel) fuel []) fuel st

/- ===== parser.rs : public entry points ===== -/

def mkPSt (tokens : List Token) : PSt := ⟨[], ⟨tokens, 0⟩⟩

def parse_expression (fuel : Nat) (tokens : List Token) : PRes Expr × PSt :=
  parse_expressionN fuel (mkPSt tokens)

def parse_statement (fuel : Nat) (tokens : List Token) : PRes Stmt × PSt :=
  parse_stmtN fuel (mkPSt tokens)

def parse_block (fuel : Nat) (tokens : List Token) : PRes Block × PSt :=
  parse_block_loop (parse_stmtN fuel) fuel [] (mkPSt tokens)

/- ===== shared test fixtures ===== -/

/- Parser-level claims are about token sequences; lexeme and location do
not influence parsing, so fixture tokens carry an empty lexeme. -/
def tok (t : TokenType) : Token := ⟨t, [], Location.new⟩

/- ===== Claim C1 ===== -/

/-- Claim C1 counterexample: scanning the source 3-5 does not yield three
tokens (integer 3, Minus, integer 5); it yields exactly two tokens, the
integer literal 3 followed by the integer literal -5, because the scanner
merges a minus into a numeric literal whenever the next character is a
digit, regardless of context. -/
theorem c1_counterexample :
    (scan ['3', '-', '5']).map (fun p => p.1.map (fun t => t.type_))
      = some [.IntegerLiteral 3, .IntegerLiteral (-5)]
    ∧ some [TokenType.IntegerLiteral 3, .IntegerLiteral (-5)]
      ≠ some [TokenType.IntegerLiteral 3, .Minus, .IntegerLiteral 5] :=
  ⟨rfl, by decide⟩

/-- Claim C1 amended: scanning -5 yields exactly one integer-literal token
with value -5; scanning 3-5 yields exactly two tokens, integer literal 3
followed by integer literal -5 (the minus is merged into the following
numeric literal because a digit follows it). -/
theorem c1_amended :
    (scan ['-', '5']).map (fun p => p.1.map (fun t => t.type_))
      = some [.IntegerLiteral (-5)]
    ∧ (scan ['3', '-', '5']).map (fun p => p.1.map (fun t => t.type_))
      = some [.IntegerLiteral 3, .IntegerLiteral (-5)] :=
  ⟨rfl, rfl⟩

/- ===== Claim C2 ===== -/

/-- Claim C2 counterexample: parsing NOT a = b produces
Unary(LogicNot, Binary(Equal, a, b)) — NOT applies to the whole comparison
— which differs from the claimed Binary(Equal, Unary(LogicNot, a), b). -/
theorem c2_counterexample :
    (parse_expression 20
        [tok .Not, tok (.Identifier ['a']), tok .Equal, tok (.Identifier ['b'])]).1
      = .ok (.Unary .LogicNot (.Binary (.Identifier 0) .Equal (.Identifier 1)))
    ∧ Expr.Unary .LogicNot (.Binary (.Identifier 0) .Equal (.Identifier 1))
      ≠ Expr.Binary (.Unary .LogicNot (.Identifier 0)) .Equal (.Identifier 1) :=
  ⟨rfl, fun h => Expr.noConfusion h⟩

/-- Claim C2 amended: NOT a = b parses as Unary(LogicNot, Binary(Equal, a, b))
— NOT binds looser than the comparison operators (its operand is a full
comparison) — while NOT a AND b parses as
Binary(LogicAnd, Unary(LogicNot, a), b), so NOT does bind tighter than
AND/OR. -/
theorem c2_amended :
    (parse_expression 20
        [tok .Not, tok (.Identifier ['a']), tok .Equal, tok (.Identifier ['b'])]).1
      = .ok (.Unary .LogicNot (.Binary (.Identifier 0) .Equal (.Identifier 1)))
    ∧ (parse_expression 20
        [tok .Not, tok (.Identifier ['a']), tok .And, tok (.Identifier ['b'])]).1
      = .ok (.Binary (.Unary .LogicNot (.Identifier 0)) .LogicAnd (.Identifier 1)) :=
  ⟨rfl, rfl⟩

/- ===== Claim C5 counterexample ===== -/

/-- Claim C5 counterexample: on the token buffer IF a ENDIF, block parsing
stops because the statement parse fails at THEN (after consuming IF and a),
and the cursor is left at position 2, not restored to the pre-attempt
position 0; a single backtrack step (2 to 1) cannot restore it either. -/
theorem c5_counterexample :
    (parse_block 20 [tok .If, tok (.Identifier ['a']), tok .EndIf]).1 = .ok (.mk [])
    ∧ (parse_block 20 [tok .If, tok (.Identifier ['a']), tok .EndIf]).2.buf.current = 2
    ∧ (2 : Nat) ≠ 0 ∧ (2 : Nat) - 1 ≠ 0 :=
  ⟨rfl, rfl, by decide, by decide⟩

/- ===== Claim C6 ===== -/

/-- Claim C6: with the initializer a bare literal the parse returns a
ConstantDecl, and with initializer foo() it returns UnexpectedToken as
claimed; but on the token sequence CONSTANT x <- y ending the input with
the non-literal identifier y, the code panics (the unexpected_token macro
unwraps current_token() at end of buffer) instead of returning the claimed
UnexpectedToken error. -/
theorem c6_constant_eof_panics :
    (parse_statement 20
        [tok .Constant, tok (.Identifier ['x']), tok .LArrow, tok (.Identifier ['y'])]).1
      = .panicked
    ∧ (parse_statement 20
        [tok .Constant, tok (.Identifier ['x']), tok .LArrow, tok (.IntegerLiteral 5)]).1
      = .ok (.ConstantDecl (.Identifier 0) (.Integer 5))
    ∧ (parse_statement 20
        [tok .Constant, tok (.Identifier ['x']), tok .LArrow, tok (.Identifier ['f']),
         tok .LParen, tok .RParen]).1
      = .err (.UnexpectedToken (tok .LParen)) :=
  ⟨rfl, rfl, rfl⟩

/- ===== Claim C5 amended ===== -/

/-- Claim C5 amended: when the statement-parse attempt fails at its very
first token — in particular whenever the next token is one of the
block-terminator keywords ENDIF, ELSE, NEXT, UNTIL, ENDWHILE,
ENDPROCEDURE, ENDFUNCTION — parse_stmt returns UnexpectedToken with the
cursor (and the whole parser state) exactly as before the attempt, so the
block parse returns with the enclosing construct's terminator still the
next token.  (A statement parse that fails deeper inside may instead leave
the cursor advanced past the failure point, as the counterexample shows.) -/
theorem c5_amended (fuel bfuel : Nat) (acc : List Stmt) (m : List (List Char × Nat))
    (items : List Token) (p : Nat) (t : Token)
    (hget : items.get? p = some t)
    (ht : t.type_ = .EndIf ∨ t.type_ = .Else ∨ t.type_ = .Next ∨ t.type_ = .Until
      ∨ t.type_ = .EndWhile ∨ t.type_ = .EndProcedure ∨ t.type_ = .EndFunction) :
    parse_stmtN (fuel + 1) ⟨m, ⟨items, p⟩⟩ = (.err (.UnexpectedToken t), ⟨m, ⟨items, p⟩⟩)
    ∧ parse_block_loop (parse_stmtN (fuel + 1)) (bfuel + 1) acc ⟨m, ⟨items, p⟩⟩
        = (.ok (.mk acc), ⟨m, ⟨items, p⟩⟩) := by
  obtain ⟨hlt, hgt⟩ := List.get?_eq_some.mp hget
  simp only [List.get_eq_getElem] at hgt
  have hct : TokenBuffer.current_token ⟨items, p⟩ = some t := by
    simp [TokenBuffer.current_token, hlt, hgt]
  have hstmt : parse_stmtN (fuel + 1) ⟨m, ⟨items, p⟩⟩
      = (.err (.UnexpectedToken t), ⟨m, ⟨items, p⟩⟩) := by
    obtain ⟨tt, lex, loc⟩ := t
    rcases ht with hh|hh|hh|hh|hh|hh|hh <;>
      (simp only at hh; subst hh;
       simp [parse_stmtN, parse_stmtF, parse_assignableF, parse_callF, parse_primaryF,
         pbind, PSt.next, PSt.backtrack, TokenBuffer.next, TokenBuffer.peek, hct,
         TokenBuffer.backtrack, unexpected_token])
  refine ⟨hstmt, ?_⟩
  simp [parse_block_loop, hstmt]

/-- Claim C5 amended, witness: on the buffer holding the single token ENDIF
the statement parse fails with the cursor still at position 0. -/
theorem c5_witness :
    parse_stmtN 1 ⟨[], ⟨[tok .EndIf], 0⟩⟩
      = (.err (.UnexpectedToken (tok .EndIf)), ⟨[], ⟨[tok .EndIf], 0⟩⟩) :=
  (c5_amended 0 0 [] [] [tok .EndIf] 0 (tok .EndIf) rfl (Or.inl rfl)).1

/- ===== Claim C9 ===== -/

/-- Claim C9: from any cursor within bounds, every TokenBuffer operation
keeps the cursor within bounds: next advances by one exactly when the
cursor is strictly below the length (returning some) and stays put at the
end (returning none); consume and next_if_equal preserve the bound; and
backtrack retreats by one exactly when the cursor is strictly positive.
The lower bound 0 <= cursor holds because the cursor is a natural number,
matching the unsigned usize of the code. -/
theorem c9_cursor_bounds (b : TokenBuffer) (h : b.current ≤ b.items.length) :
    ((b.next).2.current ≤ b.items.length
      ∧ ((b.next).1.isSome ↔ b.current < b.items.length)
      ∧ (b.next).2.current = (if b.current < b.items.length then b.current + 1 else b.current))
    ∧ (∀ t, (b.consume t).2.current ≤ b.items.length)
    ∧ (∀ t, (b.next_if_equal t).2.current ≤ b.items.length)
    ∧ (b.backtrack.current ≤ b.items.length
      ∧ b.backtrack.current = (if 0 < b.current then b.current - 1 else b.current)) := by
  have hbt2 : b.backtrack.current = (if 0 < b.current then b.current - 1 else b.current) := by
    simp only [TokenBuffer.backtrack]
    split_ifs <;> rfl
  have hbt1 : b.backtrack.current ≤ b.items.length := by
    rw [hbt2]; split_ifs <;> omega
  by_cases hlt : b.current < b.items.length
  · refine ⟨⟨?_, ?_, ?_⟩, ?_, ?_, hbt1, hbt2⟩
    · simp [TokenBuffer.next, TokenBuffer.peek, TokenBuffer.current_token, hlt]
      omega
    · simp [TokenBuffer.next, TokenBuffer.peek, TokenBuffer.current_token, hlt]
    · simp [TokenBuffer.next, TokenBuffer.peek, TokenBuffer.current_token, hlt]
    · intro t
      simp only [TokenBuffer.consume, TokenBuffer.peek, TokenBuffer.current_token, dif_pos hlt,
        Option.map_some']
      split_ifs <;>
        simp [TokenBuffer.next, TokenBuffer.peek, TokenBuffer.current_token, hlt, unexpected_token,
          dif_pos hlt] <;> omega
    · intro t
      simp only [TokenBuffer.next_if_equal, TokenBuffer.peek, TokenBuffer.current_token,
        dif_pos hlt, Option.map_some']
      split_ifs <;>
        simp [TokenBuffer.next, TokenBuffer.peek, TokenBuffer.current_token, hlt] <;> omega
  · refine ⟨⟨?_, ?_, ?_⟩, ?_, ?_, hbt1, hbt2⟩
    · simp [TokenBuffer.next, TokenBuffer.peek, TokenBuffer.current_token, hlt]
      exact h
    · simp [TokenBuffer.next, TokenBuffer.peek, TokenBuffer.current_token, hlt]
    · simp [TokenBuffer.next, TokenBuffer.peek, TokenBuffer.current_token, hlt]
    · intro t
      simp [TokenBuffer.consume, TokenBuffer.peek, TokenBuffer.current_token, hlt]
      exact h
    · intro t
      simp [TokenBuffer.next_if_equal, TokenBuffer.peek, TokenBuffer.current_token, hlt]
      exact h

/-- Claim C9 witness: on the one-token buffer at cursor 0, next keeps the
cursor within bounds. -/
theorem c9_witness :
    ((⟨[tok .Plus], 0⟩ : TokenBuffer).next).2.current ≤ ([tok .Plus] : List Token).length :=
  (c9_cursor_bounds ⟨[tok .Plus], 0⟩ (by decide)).1.1

/- ===== Claim C10 ===== -/

/-- Claim C10: for every token sequence whose first token is CASE, CALL,
OPENFILE, READFILE, WRITEFILE or CLOSEFILE, parse_statement reaches
unimplemented! and panics (never returning UnexpectedToken or
UnexpectedEOF), and parse_type panics whenever the next token is ARRAY. -/
theorem c10_unimplemented_panics :
    (∀ (fuel : Nat) (t : Token) (rest : List Token),
      (t.type_ = .Case ∨ t.type_ = .Call ∨ t.type_ = .OpenFile ∨ t.type_ = .ReadFile
        ∨ t.type_ = .WriteFile ∨ t.type_ = .CloseFile) →
      (parse_statement (fuel + 1) (t :: rest)).1 = .panicked)
    ∧ (∀ (st : PSt), st.peek = some .Array → (parse_type st).1 = .panicked) := by
  constructor
  · intro fuel t rest h
    obtain ⟨tt, lex, loc⟩ := t
    rcases h with h | h | h | h | h | h <;>
      (simp only at h; subst h;
       simp only [parse_statement, parse_stmtN];
       simp [parse_stmtF, PSt.next, TokenBuffer.next, TokenBuffer.peek,
         TokenBuffer.current_token, mkPSt])
  · intro st h
    have h' : st.buf.peek = some .Array := h
    simp only [parse_type, PSt.next, TokenBuffer.next, h']

/-- Claim C10 witness: a buffer starting with CASE makes parse_statement
panic. -/
theorem c10_witness : (parse_statement 1 [tok .Case]).1 = .panicked :=
  c10_unimplemented_panics.1 0 (tok .Case) [] (Or.inl rfl)

/- ===== Claim C8 : comma-separated lists ===== -/

theorem pst_next_some (st : PSt) (tt : TokenType) (st₂ : PSt)
    (h : st.next = (some tt, st₂)) :
    st₂.buf.items = st.buf.items ∧ st₂.buf.current = st.buf.current + 1
      ∧ st.buf.current < st.buf.items.length
      ∧ (st.buf.items.get? st.buf.current).map (fun t => t.type_) = some tt := by
  by_cases hlt : st.buf.current < st.buf.items.length
  · simp only [PSt.next, TokenBuffer.next, TokenBuffer.peek, TokenBuffer.current_token,
      dif_pos hlt, Option.map_some'] at h
    simp only [Prod.mk.injEq, Option.some.injEq] at h
    obtain ⟨h1, h2⟩ := h
    subst h2
    refine ⟨rfl, rfl, hlt, ?_⟩
    rw [List.get?_eq_get hlt, Option.map_some', h1]
  · simp only [PSt.next, TokenBuffer.next, TokenBuffer.peek, TokenBuffer.current_token,
      dif_neg hlt] at h
    simp at h

theorem pst_next_if_equal_some (st : PSt) (endT : TokenType) (x : TokenType) (st₂ : PSt)
    (h : st.next_if_equal endT = (some x, st₂)) :
    st₂.buf.items = st.buf.items ∧ st₂.buf.current = st.buf.current + 1
      ∧ st.buf.current < st.buf.items.length
      ∧ (st.buf.items.get? st.buf.current).map (fun t => t.type_) = some endT := by
  by_cases hlt : st.buf.current < st.buf.items.length
  · simp only [PSt.next_if_equal, TokenBuffer.next_if_equal, TokenBuffer.peek,
      TokenBuffer.current_token, dif_pos hlt, Option.map_some'] at h
    split_ifs at h with he
    · have h' : st.next = (some x, st₂) := h
      obtain ⟨a, b, c, _⟩ := pst_next_some st x st₂ h'
      refine ⟨a, b, c, ?_⟩
      rw [List.get?_eq_get hlt, Option.map_some', he]
    · simp at h
  · simp only [PSt.next_if_equal, TokenBuffer.next_if_equal, TokenBuffer.peek,
      TokenBuffer.current_token, dif_neg hlt] at h
    simp at h

theorem comma_sep_loop_closes {α : Type} (g : PSt → PRes α × PSt) (endT : TokenType) :
    ∀ (fuel : Nat) (st : PSt) (v : List α) (st' : PSt),
      comma_separated_end_loop g endT fuel st = (.ok v, st') →
      0 < st'.buf.current ∧ st'.buf.current ≤ st'.buf.items.length
        ∧ (st'.buf.items.get? (st'.buf.current - 1)).map (fun t => t.type_) = some endT := by
  intro fuel
  induction fuel with
  | zero =>
    intro st v st' h
    exact absurd h (by simp [comma_separated_end_loop])
  | succ f ih =>
    intro st v st' h
    rw [comma_separated_end_loop] at h
    rcases hg : g st with ⟨res, st₁⟩
    rw [hg] at h
    cases res with
    | ok e =>
      simp only [pbind] at h
      split at h
      case _ tt st₂ hn =>
        split_ifs at h with h1 h2
        · obtain ⟨hi, hc, hl, hget⟩ := pst_next_some st₁ tt st₂ hn
          have hlen : st₂.buf.items.length = st₁.buf.items.length := by rw [hi]
          simp only [Prod.mk.injEq] at h
          obtain ⟨_, hst⟩ := h
          subst hst
          refine ⟨by omega, by omega, ?_⟩
          rw [hi, hc]
          simpa [h1] using hget
        · rcases hr : comma_separated_end_loop g endT f st₂ with ⟨res₂, st₃⟩
          rw [hr] at h
          cases res₂ with
          | ok es =>
            simp only [pconsRes, Prod.mk.injEq] at h
            obtain ⟨_, hst⟩ := h
            subst hst
            exact ih st₂ es st₃ hr
          | err e2 => simp [pconsRes] at h
          | panicked => simp [pconsRes] at h
          | fuelOut => simp [pconsRes] at h
        · cases hct : st₂.backtrack.buf.current_token <;>
            simp [unexpected_token, hct] at h
      case _ st₂ hn => simp at h
    | err e2 => simp [pbind] at h
    | panicked => simp [pbind] at h
    | fuelOut => simp [pbind] at h

theorem comma_sep_end_closes {α : Type} (g : PSt → PRes α × PSt) (endT : TokenType)
    (fuel : Nat) (st : PSt) (v : List α) (st' : PSt)
    (h : comma_separated_end g endT fuel st = (.ok v, st')) :
    0 < st'.buf.current ∧ st'.buf.current ≤ st'.buf.items.length
      ∧ (st'.buf.items.get? (st'.buf.current - 1)).map (fun t => t.type_) = some endT := by
  rw [comma_separated_end] at h
  rcases hq : st.next_if_equal endT with ⟨o, st₁⟩
  rw [hq] at h
  cases o with
  | some x =>
    simp only [Prod.mk.injEq] at h
    obtain ⟨_, hst⟩ := h
    subst hst
    obtain ⟨hi, hc, hl, hget⟩ := pst_next_if_equal_some st endT x st₁ hq
    have hlen : st₁.buf.items.length = st.buf.items.length := by rw [hi]
    refine ⟨by omega, by omega, ?_⟩
    rw [hi, hc]
    simpa using hget
  | none => exact comma_sep_loop_closes g endT fuel st₁ v st' h

/-- Claim C8: an empty, immediately-closed argument list parses with zero
arguments (f() gives FunctionCall with no args); a list ending in a comma
with no following element is a syntax error (f(a,) fails with
UnexpectedToken at the closing parenthesis); and whenever the
comma-separated list form with a closing delimiter succeeds, the token
just before the final cursor is that closing delimiter — the list was
consumed through its delimiter — for any element parser and any
delimiter. -/
theorem c8_list_parsing :
    ((parse_expression 20 [tok (.Identifier ['f']), tok .LParen, tok .RParen]).1
        = .ok (.FunctionCall (.Identifier 0) []))
    ∧ ((parse_expression 20 [tok (.Identifier ['f']), tok .LParen, tok (.Identifier ['a']),
          tok .Comma, tok .RParen]).1
        = .err (.UnexpectedToken (tok .RParen)))
    ∧ (∀ (α : Type) (g : PSt → PRes α × PSt) (endT : TokenType) (fuel : Nat) (st : PSt)
         (v : List α) (st' : PSt),
        comma_separated_end g endT fuel st = (.ok v, st') →
        0 < st'.buf.current ∧ st'.buf.current ≤ st'.buf.items.length
          ∧ (st'.buf.items.get? (st'.buf.current - 1)).map (fun t => t.type_) = some endT) :=
  ⟨rfl, rfl, fun _ g endT fuel st v st' h => comma_sep_end_closes g endT fuel st v st' h⟩

/-- Claim C8 witness: a list consisting only of the closing parenthesis
parses as the empty list, with the delimiter consumed. -/
theorem c8_witness :
    0 < ((⟨[], ⟨[tok .RParen], 1⟩⟩ : PSt)).buf.current
    ∧ (⟨[], ⟨[tok .RParen], 1⟩⟩ : PSt).buf.current
        ≤ (⟨[], ⟨[tok .RParen], 1⟩⟩ : PSt).buf.items.length
    ∧ ((⟨[], ⟨[tok .RParen], 1⟩⟩ : PSt).buf.items.get?
          ((⟨[], ⟨[tok .RParen], 1⟩⟩ : PSt).buf.current - 1)).map (fun t => t.type_)
        = some .RParen :=
  c8_list_parsing.2.2 Expr (fun s => (.err .UnexpectedEOF, s)) .RParen 1
    ⟨[], ⟨[tok .RParen], 0⟩⟩ [] ⟨[], ⟨[tok .RParen], 1⟩⟩ rfl

/- ===== Claim C7 : identifier interning ===== -/

/- firstSeenAcc collects the distinct spellings of a list in first-seen
order (continuing from an already-seen prefix); idxIn is the position of
the first match; withIdx pairs spellings with consecutive handles.  These
characterize the association-list interner. -/

def firstSeenAcc (seen : List (List Char)) : List (List Char) → List (List Char)
  | [] => seen
  | x :: xs => firstSeenAcc (if x ∈ seen then seen else seen ++ [x]) xs

def firstSeen (ids : List (List Char)) : List (List Char) := firstSeenAcc [] ids

def idxIn (x : List Char) : List (List Char) → Nat
  | [] => 0
  | y :: ys => if y = x then 0 else idxIn x ys + 1

def withIdx : Nat → List (List Char) → List (List Char × Nat)
  | _, [] => []
  | n, y :: ys => (y, n) :: withIdx (n + 1) ys

theorem withIdx_length (n : Nat) (l : List (List Char)) : (withIdx n l).length = l.length := by
  induction l generalizing n with
  | nil => rfl
  | cons y ys ih => simp [withIdx, ih]

theorem withIdx_append_one (n : Nat) (l : List (List Char)) (x : List Char) :
    withIdx n l ++ [(x, n + l.length)] = withIdx n (l ++ [x]) := by
  induction l generalizing n with
  | nil => simp [withIdx]
  | cons y ys ih =>
    simp only [withIdx, List.cons_append, List.append_eq, List.length_cons]
    have h1 : n + (ys.length + 1) = (n + 1) + ys.length := by omega
    rw [h1, ih (n + 1)]

theorem lookup_withIdx (s : List Char) (seen : List (List Char)) (n : Nat) :
    lookupIdent (withIdx n seen) s
      = if s ∈ seen then some (n + idxIn s seen) else none := by
  induction seen generalizing n with
  | nil => simp [withIdx, lookupIdent, idxIn]
  | cons y ys ih =>
    simp only [withIdx, lookupIdent]
    by_cases hy : y = s
    · subst hy
      simp [idxIn, List.mem_cons]
    · rw [if_neg hy, ih (n + 1)]
      by_cases hmem : s ∈ ys
      · simp [List.mem_cons, hmem, hy, idxIn, Ne.symm hy]
        omega
      · simp [List.mem_cons, hmem, hy, Ne.symm hy, idxIn]

theorem firstSeenAcc_extends (l : List (List Char)) (seen : List (List Char)) :
    ∃ t, firstSeenAcc seen l = seen ++ t := by
  induction l generalizing seen with
  | nil => exact ⟨[], by simp [firstSeenAcc]⟩
  | cons x xs ih =>
    simp only [firstSeenAcc]
    by_cases hx : x ∈ seen
    · rw [if_pos hx]; exact ih seen
    · rw [if_neg hx]
      obtain ⟨t, ht⟩ := ih (seen ++ [x])
      exact ⟨x :: t, by simpa using ht⟩

theorem idxIn_append (x : List Char) (l t : List (List Char)) (h : x ∈ l) :
    idxIn x (l ++ t) = idxIn x l := by
  induction l with
  | nil => simp at h
  | cons y ys ih =>
    simp only [List.cons_append, List.append_eq, idxIn]
    by_cases hy : y = x
    · simp [hy]
    · rw [if_neg hy, if_neg hy,
        ih (by rcases List.mem_cons.mp h with h | h; exact absurd h.symm hy; exact h)]

theorem idxIn_self_append (x : List Char) (l : List (List Char)) (h : x ∉ l) :
    idxIn x (l ++ [x]) = l.length := by
  induction l with
  | nil => simp [idxIn]
  | cons y ys ih =>
    simp only [List.cons_append, List.append_eq, idxIn, List.length_cons]
    have hy : y ≠ x := fun he => h (he ▸ List.mem_cons_self y ys)
    rw [if_neg hy, ih (fun hm => h (List.mem_cons_of_mem y hm))]

theorem firstSeenAcc_split (l₁ l₂ : List (List Char)) (seen : List (List Char)) :
    firstSeenAcc seen (l₁ ++ l₂) = firstSeenAcc (firstSeenAcc seen l₁) l₂ := by
  induction l₁ generalizing seen with
  | nil => simp [firstSeenAcc]
  | cons x xs ih => simp only [List.cons_append, firstSeenAcc]; exact ih _

theorem mem_firstSeenAcc (x : List Char) (l : List (List Char)) (seen : List (List Char))
    (h : x ∈ l) : x ∈ firstSeenAcc seen l := by
  induction l generalizing seen with
  | nil => simp at h
  | cons y ys ih =>
    rcases List.mem_cons.mp h with h | h
    · subst h
      simp only [firstSeenAcc]
      by_cases hx : x ∈ seen
      · rw [if_pos hx]
        obtain ⟨t, ht⟩ := firstSeenAcc_extends ys seen
        rw [ht]; exact List.mem_append_left _ hx
      · rw [if_neg hx]
        obtain ⟨t, ht⟩ := firstSeenAcc_extends ys (seen ++ [x])
        rw [ht]
        exact List.mem_append_left _ (List.mem_append_right _ (List.mem_singleton.mpr rfl))
    · simp only [firstSeenAcc]
      exact ih _ h

theorem mem_firstSeenAcc_inv (x : List Char) (l seen : List (List Char))
    (h : x ∈ firstSeenAcc seen l) : x ∈ seen ∨ x ∈ l := by
  induction l generalizing seen with
  | nil => exact Or.inl (by simpa [firstSeenAcc] using h)
  | cons y ys ih =>
    simp only [firstSeenAcc] at h
    rcases ih _ h with hm | hm
    · by_cases hy : y ∈ seen
      · rw [if_pos hy] at hm; exact Or.inl hm
      · rw [if_neg hy] at hm
        rcases List.mem_append.mp hm with hm | hm
        · exact Or.inl hm
        · exact Or.inr (List.mem_cons.mpr (Or.inl (List.mem_singleton.mp hm)))
    · exact Or.inr (List.mem_cons_of_mem _ hm)

theorem idxIn_inj (x y : List Char) (l : List (List Char)) (hx : x ∈ l) (hy : y ∈ l)
    (h : idxIn x l = idxIn y l) : x = y := by
  induction l with
  | nil => simp at hx
  | cons z zs ih =>
    simp only [idxIn] at h
    by_cases hzx : z = x
    · by_cases hzy : z = y
      · rw [← hzx, hzy]
      · rw [if_pos hzx, if_neg hzy] at h
        simp at h
    · by_cases hzy : z = y
      · rw [if_neg hzx, if_pos hzy] at h
        simp at h
      · rw [if_neg hzx, if_neg hzy] at h
        have hx' : x ∈ zs := by
          rcases List.mem_cons.mp hx with hh | hh
          · exact absurd hh.symm hzx
          · exact hh
        have hy' : y ∈ zs := by
          rcases List.mem_cons.mp hy with hh | hh
          · exact absurd hh.symm hzy
          · exact hh
        exact ih hx' hy' (by omega)

theorem get_ident_handle_withIdx (seen : List (List Char)) (x : List Char) :
    get_ident_handle (withIdx 0 seen) x
      = if x ∈ seen then (idxIn x seen, withIdx 0 seen)
        else (seen.length, withIdx 0 (seen ++ [x])) := by
  simp only [get_ident_handle, lookup_withIdx]
  by_cases hx : x ∈ seen
  · simp [hx]
  · simp only [hx, if_neg, if_false, withIdx_length]
    rw [← withIdx_append_one 0 seen x]
    simp

theorem internList_spec (ids : List (List Char)) :
    ∀ (seen : List (List Char)),
      internList (withIdx 0 seen) ids
        = (ids.map (fun x => idxIn x (firstSeenAcc seen ids)), withIdx 0 (firstSeenAcc seen ids)) := by
  induction ids with
  | nil => intro seen; simp [internList, firstSeenAcc]
  | cons x xs ih =>
    intro seen
    simp only [internList, get_ident_handle_withIdx, firstSeenAcc, List.map_cons]
    by_cases hx : x ∈ seen
    · rw [if_pos hx, if_pos hx]
      simp only [ih seen]
      obtain ⟨t, ht⟩ := firstSeenAcc_extends xs seen
      rw [ht, idxIn_append x seen t hx]
    · rw [if_neg hx, if_neg hx]
      simp only [ih (seen ++ [x])]
      obtain ⟨t, ht⟩ := firstSeenAcc_extends xs (seen ++ [x])
      rw [ht, idxIn_append x (seen ++ [x]) t (by simp), idxIn_self_append x seen hx]

/-- Claim C7: running the interner from empty over any sequence of
identifier spellings, every occurrence's handle is the index of its
spelling in the first-seen-order list of distinct spellings; hence two
occurrences get the same handle exactly when they are the same spelling
(injective), and a first occurrence gets handle equal to the number of
distinct spellings seen before it — the next handle in the dense sequence
0, 1, 2, ... . -/
theorem c7_interning (ids : List (List Char)) :
    handlesOf ids = ids.map (fun x => idxIn x (firstSeen ids))
    ∧ (∀ i j, i < ids.length → j < ids.length →
        ((handlesOf ids).get? i = (handlesOf ids).get? j ↔ ids.get? i = ids.get? j))
    ∧ (∀ i x, ids.get? i = some x → x ∉ ids.take i →
        (handlesOf ids).get? i = some ((firstSeen (ids.take i)).length)) := by
  have hmain : handlesOf ids = ids.map (fun x => idxIn x (firstSeen ids)) := by
    have h := internList_spec ids []
    simp only [withIdx] at h
    simp only [handlesOf, firstSeen, h]
  refine ⟨hmain, ?_, ?_⟩
  · intro i j hi hj
    rw [hmain, List.get?_map, List.get?_map, List.get?_eq_get hi, List.get?_eq_get hj]
    simp only [Option.map_some', Option.some.injEq]
    constructor
    · intro h
      exact idxIn_inj _ _ _
        (mem_firstSeenAcc _ _ _ (List.get_mem ids i hi))
        (mem_firstSeenAcc _ _ _ (List.get_mem ids j hj)) h
    · intro h; rw [h]
  · intro i x hx hnotin
    obtain ⟨hlt, hgt⟩ := List.get?_eq_some.mp hx
    rw [hmain, List.get?_map, hx]
    simp only [Option.map_some', Option.some.injEq]
    have hsplit : ids = ids.take i ++ x :: ids.drop (i + 1) := by
      conv_lhs => rw [← List.take_append_drop i ids]
      congr 1
      rw [List.drop_eq_get_cons hlt, hgt]
    have hfs : firstSeen ids
        = firstSeenAcc (firstSeenAcc [] (ids.take i)) (x :: ids.drop (i + 1)) := by
      rw [firstSeen]
      conv_lhs => rw [hsplit]
      rw [firstSeenAcc_split]
    rw [hfs]
    have hxS : x ∉ firstSeenAcc [] (ids.take i) := by
      intro hmem
      rcases mem_firstSeenAcc_inv _ _ _ hmem with hh | hh
      · simp at hh
      · exact hnotin hh
    simp only [firstSeenAcc, if_neg hxS]
    obtain ⟨t, ht⟩ := firstSeenAcc_extends (ids.drop (i + 1)) (firstSeenAcc [] (ids.take i) ++ [x])
    rw [ht, idxIn_append x _ t (by simp), idxIn_self_append x _ hxS]
    rfl

/-- Claim C7 witness: in the session a b a, occurrences 0 and 2 (both a)
receive the same handle, and the characterization applies at that concrete
input. -/
theorem c7_witness :
    ((handlesOf [['a'], ['b'], ['a']]).get? 0 = (handlesOf [['a'], ['b'], ['a']]).get? 2
      ↔ ([['a'], ['b'], ['a']] : List (List Char)).get? 0
          = ([['a'], ['b'], ['a']] : List (List Char)).get? 2) :=
  (c7_interning [['a'], ['b'], ['a']]).2.1 0 2 (by decide) (by decide)

/- ===== Claim C4 : lexeme round trip =====
Every scanner helper moves characters from the remaining source to
cur_lexeme, so cur_lexeme ++ source is invariant; a produced token's
lexeme therefore accounts exactly for the consumed characters. -/

theorem advance_while_inv (cond : Char → Bool) (l : List Char) (st : ScanSt) :
    (advance_while cond l st).2.cur_lexeme ++ (advance_while cond l st).1
      = st.cur_lexeme ++ l := by
  induction l generalizing st with
  | nil => simp [advance_while]
  | cons c rest ih =>
    simp only [advance_while]
    by_cases hc : cond c = true
    · rw [if_pos hc, ih]
      simp [consumeChar]
    · rw [if_neg hc]

theorem advance_if_match_inv (target : Char) (l : List Char) (st : ScanSt) :
    (advance_if_match target l st).2.2.cur_lexeme ++ (advance_if_match target l st).2.1
      = st.cur_lexeme ++ l := by
  cases l with
  | nil => rfl
  | cons c rest =>
    simp only [advance_if_match]
    by_cases hc : c = target
    · rw [if_pos hc]
      simp [consumeChar]
    · rw [if_neg hc]

theorem number_inv (src : List Char) (st : ScanSt) :
    (number src st).2.2.cur_lexeme ++ (number src st).2.1 = st.cur_lexeme ++ src := by
  have i1 := advance_while_inv isAsciiDigit src st
  have i2 := advance_if_match_inv '.'
    (advance_while isAsciiDigit src st).1 (advance_while isAsciiDigit src st).2
  simp only [number]
  split
  case _ src₂ st₂ heq =>
    rw [heq] at i2
    simp only at i2
    split
    · split
      · simp only []
        rw [advance_while_inv isAsciiDigit src₂ st₂, i2, i1]
      · simp only []
        rw [advance_while_inv isAsciiDigit src₂ st₂, i2, i1]
    · simp only []
      rw [i2, i1]
  case _ src₂ st₂ heq =>
    rw [heq] at i2
    simp only at i2
    split
    · simp only []
      rw [i2, i1]
    · simp only []
      rw [i2, i1]

theorem charLit_inv (src : List Char) (st : ScanSt) :
    (charLit src st).2.2.cur_lexeme ++ (charLit src st).2.1 = st.cur_lexeme ++ src := by
  simp only [charLit]
  cases src with
  | nil => rfl
  | cons c rest =>
    simp only [advance]
    have i2 := advance_if_match_inv '\'' rest (consumeChar c st)
    split
    case _ s₂ t₂ heq =>
      rw [heq] at i2
      simp only [consumeChar] at i2
      rw [i2]
      simp
    case _ s₂ t₂ heq =>
      rw [heq] at i2
      simp only [consumeChar] at i2
      rw [i2]
      simp

theorem stringLit_inv (src : List Char) (st : ScanSt) :
    (stringLit src st).2.2.cur_lexeme ++ (stringLit src st).2.1 = st.cur_lexeme ++ src := by
  have i1 := advance_while_inv (fun c => !(c == '"') && !(c == '\n')) src st
  have i2 := advance_if_match_inv '"'
    (advance_while (fun c => !(c == '"') && !(c == '\n')) src st).1
    (advance_while (fun c => !(c == '"') && !(c == '\n')) src st).2
  simp only [stringLit]
  split
  case _ s₂ t₂ heq =>
    rw [heq] at i2
    simp only at i2
    rw [i2, i1]
  case _ s₂ t₂ heq =>
    rw [heq] at i2
    simp only at i2
    rw [i2, i1]

theorem scan_dispatch_inv (c : Char) (src : List Char) (st : ScanSt)
    (out : LexOut) (src' : List Char) (st' : ScanSt)
    (h : scan_dispatch c src st = (out, src', st')) :
    st'.cur_lexeme ++ src' = st.cur_lexeme ++ src := by
  unfold scan_dispatch at h
  by_cases h1 : c = '('
  · rw [if_pos h1] at h
    simp only [Prod.mk.injEq] at h
    obtain ⟨-, hA, hB⟩ := h
    subst hA
    subst hB
    rfl
  rw [if_neg h1] at h
  by_cases h2 : c = ')'
  · rw [if_pos h2] at h
    simp only [Prod.mk.injEq] at h
    obtain ⟨-, hA, hB⟩ := h
    subst hA
    subst hB
    rfl
  rw [if_neg h2] at h
  by_cases h3 : c = '['
  · rw [if_pos h3] at h
    simp only [Prod.mk.injEq] at h
    obtain ⟨-, hA, hB⟩ := h
    subst hA
    subst hB
    rfl
  rw [if_neg h3] at h
  by_cases h4 : c = ']'
  · rw [if_pos h4] at h
    simp only [Prod.mk.injEq] at h
    obtain ⟨-, hA, hB⟩ := h
    subst hA
    subst hB
    rfl
  rw [if_neg h4] at h
  by_cases h5 : c = '+'
  · rw [if_pos h5] at h
    simp only [Prod.mk.injEq] at h
    obtain ⟨-, hA, hB⟩ := h
    subst hA
    subst hB
    rfl
  rw [if_neg h5] at h
  by_cases h6 : c = '-'
  · rw [if_pos h6] at h
    by_cases hd : check_next isAsciiDigit src = true
    · rw [if_pos hd] at h
      have i := number_inv src st
      rw [h] at i
      simpa using i
    · rw [if_neg hd] at h
      simp only [Prod.mk.injEq] at h
      obtain ⟨-, hA, hB⟩ := h
      subst hA
      subst hB
      rfl
  rw [if_neg h6] at h
  by_cases h7 : c = '*'
  · rw [if_pos h7] at h
    simp only [Prod.mk.injEq] at h
    obtain ⟨-, hA, hB⟩ := h
    subst hA
    subst hB
    rfl
  rw [if_neg h7] at h
  by_cases h8 : c = '/'
  · rw [if_pos h8] at h
    have i := advance_if_match_inv '/' src st
    split at h
    next s t heq =>
      rw [heq] at i
      simp only at i
      simp only [Prod.mk.injEq] at h
      obtain ⟨-, hA, hB⟩ := h
      subst hA
      subst hB
      rw [advance_while_inv]
      exact i
    next s t heq =>
      rw [heq] at i
      simp only at i
      simp only [Prod.mk.injEq] at h
      obtain ⟨-, hA, hB⟩ := h
      subst hA
      subst hB
      exact i
  rw [if_neg h8] at h
  by_cases h9 : c = '^'
  · rw [if_pos h9] at h
    simp only [Prod.mk.injEq] at h
    obtain ⟨-, hA, hB⟩ := h
    subst hA
    subst hB
    rfl
  rw [if_neg h9] at h
  by_cases h10 : c = '='
  · rw [if_pos h10] at h
    simp only [Prod.mk.injEq] at h
    obtain ⟨-, hA, hB⟩ := h
    subst hA
    subst hB
    rfl
  rw [if_neg h10] at h
  by_cases h11 : c = '>'
  · rw [if_pos h11] at h
    have i := advance_if_match_inv '=' src st
    split at h
    next s t heq =>
      rw [heq] at i
      simp only at i
      simp only [Prod.mk.injEq] at h
      obtain ⟨-, hA, hB⟩ := h
      subst hA
      subst hB
      exact i
    next s t heq =>
      rw [heq] at i
      simp only at i
      simp only [Prod.mk.injEq] at h
      obtain ⟨-, hA, hB⟩ := h
      subst hA
      subst hB
      exact i
  rw [if_neg h11] at h
  by_cases h12 : c = '<'
  · rw [if_pos h12] at h
    have i1 := advance_if_match_inv '=' src st
    split at h
    next s1 t1 heq1 =>
      rw [heq1] at i1
      simp only at i1
      simp only [Prod.mk.injEq] at h
      obtain ⟨-, hA, hB⟩ := h
      subst hA
      subst hB
      exact i1
    next s1 t1 heq1 =>
      rw [heq1] at i1
      simp only at i1
      have i2 := advance_if_match_inv '>' s1 t1
      split at h
      next s2 t2 heq2 =>
        rw [heq2] at i2
        simp only at i2
        simp only [Prod.mk.injEq] at h
        obtain ⟨-, hA, hB⟩ := h
        subst hA
        subst hB
        exact i2.trans i1
      next s2 t2 heq2 =>
        rw [heq2] at i2
        simp only at i2
        have i3 := advance_if_match_inv '-' s2 t2
        split at h
        next s3 t3 heq3 =>
          rw [heq3] at i3
          simp only at i3
          simp only [Prod.mk.injEq] at h
          obtain ⟨-, hA, hB⟩ := h
          subst hA
          subst hB
          exact i3.trans (i2.trans i1)
        next s3 t3 heq3 =>
          rw [heq3] at i3
          simp only at i3
          simp only [Prod.mk.injEq] at h
          obtain ⟨-, hA, hB⟩ := h
          subst hA
          subst hB
          exact i3.trans (i2.trans i1)
  rw [if_neg h12] at h
  by_cases h13 : c = ','
  · rw [if_pos h13] at h
    simp only [Prod.mk.injEq] at h
    obtain ⟨-, hA, hB⟩ := h
    subst hA
    subst hB
    rfl
  rw [if_neg h13] at h
  by_cases h14 : c = ':'
  · rw [if_pos h14] at h
    simp only [Prod.mk.injEq] at h
    obtain ⟨-, hA, hB⟩ := h
    subst hA
    subst hB
    rfl
  rw [if_neg h14] at h
  by_cases h15 : c = '\''
  · rw [if_pos h15] at h
    have i := charLit_inv src st
    rw [h] at i
    simpa using i
  rw [if_neg h15] at h
  by_cases h16 : c = '"'
  · rw [if_pos h16] at h
    have i := stringLit_inv src st
    rw [h] at i
    simpa using i
  rw [if_neg h16] at h
  by_cases h17 : isAsciiAlphabetic c = true
  · rw [if_pos h17] at h
    simp only [Prod.mk.injEq] at h
    obtain ⟨-, hA, hB⟩ := h
    subst hA
    subst hB
    exact advance_while_inv _ _ _
  rw [if_neg h17] at h
  by_cases h18 : isAsciiDigit c = true
  · rw [if_pos h18] at h
    have i := number_inv src st
    rw [h] at i
    simpa using i
  rw [if_neg h18] at h
  by_cases h19 : isAsciiWhitespace c = true
  · rw [if_pos h19] at h
    simp only [Prod.mk.injEq] at h
    obtain ⟨-, hA, hB⟩ := h
    subst hA
    subst hB
    exact advance_while_inv _ _ _
  rw [if_neg h19] at h
  simp only [Prod.mk.injEq] at h
  obtain ⟨-, hA, hB⟩ := h
  subst hA
  subst hB
  rfl

theorem scan_next_none (src : List Char) (st : ScanSt) (h : scan_next src st = none) :
    src = [] := by
  cases src with
  | nil => rfl
  | cons c rest =>
    simp only [scan_next, advance] at h
    split at h <;> simp at h

theorem scan_next_tok (src : List Char) (st : ScanSt) (t : Token) (src' : List Char)
    (st' : ScanSt) (h : scan_next src st = some (.tok t, src', st')) :
    t.lexeme ++ src' = src := by
  cases src with
  | nil => simp [scan_next, advance] at h
  | cons c rest =>
    simp only [scan_next, advance] at h
    split at h
    case _ tt s₂ t₂ heq =>
      have i := scan_dispatch_inv c rest (consumeChar c ⟨[], st.cur_location⟩) _ _ _ heq
      simp only [consumeChar] at i
      simp only [Option.some.injEq, Prod.mk.injEq, SRes.tok.injEq] at h
      obtain ⟨ht, hs, hst⟩ := h
      subst ht
      subst hs
      simp only []
      rw [i]
      simp
    case _ e s₂ t₂ heq => simp at h
    case _ s₂ t₂ heq => simp at h

theorem scan_go_roundtrip (fuel : Nat) :
    ∀ (src : List Char) (st : ScanSt) (toks : List Token),
      scan_go false fuel src st = some (toks, []) →
      (toks.map (fun t => t.lexeme)).join = src := by
  induction fuel with
  | zero =>
    intro src st toks h
    simp [scan_go] at h
  | succ f ih =>
    intro src st toks h
    rw [scan_go] at h
    split at h
    case _ hs =>
      simp only [Option.some.injEq, Prod.mk.injEq] at h
      obtain ⟨h1, _⟩ := h
      subst h1
      simp [scan_next_none src st hs]
    case _ t src₁ st₁ hs =>
      simp only [Bool.false_eq_true, false_and, if_false] at h
      obtain ⟨p, hp, heqp⟩ := Option.map_eq_some'.mp h
      simp only [Prod.mk.injEq] at heqp
      obtain ⟨h1, h2⟩ := heqp
      subst h1
      rcases p with ⟨ts, es⟩
      simp only at h2
      subst h2
      have hihj := ih src₁ st₁ ts hp
      have htok := scan_next_tok src st t src₁ st₁ hs
      simp only [List.map_cons]
      rw [← htok, ← hihj]
      simp [List.join]
    case _ e src₁ st₁ hs =>
      obtain ⟨p, hp, heqp⟩ := Option.map_eq_some'.mp h
      simp only [Prod.mk.injEq] at heqp
      exact absurd heqp.2 (by simp)
    case _ hs => simp at h

/-- Claim C4 counterexample: scanning the one-character source ? yields no
tokens (only the UnexpectedCharacter lexical error), so the concatenation
of the unfiltered tokens' lexemes is empty and does not reconstruct the
source; the round trip fails for sources with lexical errors, whose
consumed characters are dropped. -/
theorem c4_counterexample :
    scan_unfiltered ['?'] = some ([], [.UnexpectedCharacter '?' ⟨1, 2⟩])
    ∧ (([] : List Token).map (fun t => t.lexeme)).join ≠ ['?'] :=
  ⟨rfl, by decide⟩

/-- Claim C4 amended: for every source whose unfiltered scan completes
with no lexical errors, concatenating the lexemes of all tokens in
emission order reconstructs the source exactly. -/
theorem c4_amended (source : List Char) (toks : List Token)
    (h : scan_unfiltered source = some (toks, [])) :
    (toks.map (fun t => t.lexeme)).join = source :=
  scan_go_roundtrip (source.length + 1) source ⟨[], Location.new⟩ toks h

/-- Claim C4 witness: the three-token unfiltered scan of 1 space plus
concatenates back to the source. -/
theorem c4_witness :
    (([⟨.IntegerLiteral 1, ['1'], ⟨1, 1⟩⟩, ⟨.Whitespace, [' '], ⟨1, 2⟩⟩,
        ⟨.Plus, ['+'], ⟨1, 3⟩⟩] : List Token).map (fun t => t.lexeme)).join
      = ['1', ' ', '+'] :=
  c4_amended ['1', ' ', '+']
    [⟨.IntegerLiteral 1, ['1'], ⟨1, 1⟩⟩, ⟨.Whitespace, [' '], ⟨1, 2⟩⟩, ⟨.Plus, ['+'], ⟨1, 3⟩⟩]
    rfl

/- ===== Claim C3 : numeric lexeme conversion ===== -/

theorem digit_ne_of_not_digit (d x : Char) (hd : isAsciiDigit d = true)
    (hx : isAsciiDigit x = false) : d ≠ x := by
  intro he
  rw [he, hx] at hd
  exact Bool.noConfusion hd

theorem digit_not_alpha (d : Char) (hd : isAsciiDigit d = true) :
    isAsciiAlphabetic d = false := by
  simp only [isAsciiDigit, Bool.and_eq_true, decide_eq_true_eq] at hd
  rw [Bool.eq_false_iff]
  intro hx
  simp only [isAsciiAlphabetic, Bool.or_eq_true, Bool.and_eq_true, decide_eq_true_eq] at hx
  omega

theorem digit_scan_dispatch (d : Char) (hd : isAsciiDigit d = true)
    (src : List Char) (st : ScanSt) :
    scan_dispatch d src st = number src st := by
  have hne : ∀ x : Char, isAsciiDigit x = false → d ≠ x :=
    fun x hx => digit_ne_of_not_digit d x hd hx
  unfold scan_dispatch
  rw [if_neg (hne '(' (by decide)), if_neg (hne ')' (by decide)), if_neg (hne '[' (by decide)),
    if_neg (hne ']' (by decide)), if_neg (hne '+' (by decide)), if_neg (hne '-' (by decide)),
    if_neg (hne '*' (by decide)), if_neg (hne '/' (by decide)), if_neg (hne '^' (by decide)),
    if_neg (hne '=' (by decide)), if_neg (hne '>' (by decide)), if_neg (hne '<' (by decide)),
    if_neg (hne ',' (by decide)), if_neg (hne ':' (by decide)), if_neg (hne '\'' (by decide)),
    if_neg (hne '"' (by decide)), if_neg (by simp [digit_not_alpha d hd]), if_pos hd]

theorem advance_while_all_append (cond : Char → Bool) (l rest : List Char) (st : ScanSt)
    (hall : ∀ x ∈ l, cond x = true) (hrest : check_next cond rest = false) :
    (advance_while cond (l ++ rest) st).1 = rest
    ∧ (advance_while cond (l ++ rest) st).2.cur_lexeme = st.cur_lexeme ++ l := by
  induction l generalizing st with
  | nil =>
    simp only [List.nil_append]
    cases rest with
    | nil => simp [advance_while]
    | cons r rs =>
      simp only [check_next] at hrest
      simp [advance_while, hrest]
  | cons x xs ih =>
    simp only [List.cons_append, List.append_eq, advance_while]
    rw [if_pos (hall x (by simp))]
    have h := ih (consumeChar x st) (fun y hy => hall y (by simp [hy]))
    refine ⟨h.1, ?_⟩
    rw [h.2]
    simp [consumeChar]

theorem takeWhile_all_append (cond : Char → Bool) (l rest : List Char)
    (hall : ∀ x ∈ l, cond x = true) (hrest : check_next cond rest = false) :
    (l ++ rest).takeWhile cond = l := by
  induction l with
  | nil =>
    cases rest with
    | nil => rfl
    | cons r rs =>
      simp only [check_next] at hrest
      simp [List.takeWhile_cons, hrest]
  | cons x xs ih =>
    simp [List.takeWhile_cons, hall x (by simp), ih (fun y hy => hall y (by simp [hy]))]

theorem parseI64_pos_digits (s : List Char) (h1 : s ≠ []) (h2 : allDigits s = true)
    (h3 : (digitsVal s : Int) ≤ 2 ^ 63 - 1) :
    parseI64 s = some ((digitsVal s : Int)) := by
  cases s with
  | nil => exact absurd rfl h1
  | cons c rest =>
    have hc : c ≠ '-' := by
      intro he
      subst he
      simp [allDigits, isAsciiDigit] at h2
    unfold parseI64
    split
    next rest2 heq =>
      simp only [List.cons.injEq] at heq
      exact absurd heq.1 hc
    next hno =>
      rw [if_pos ⟨h1, h2⟩, if_pos h3]

theorem parseI64_neg_digits (s : List Char) (h1 : s ≠ []) (h2 : allDigits s = true)
    (h3 : (digitsVal s : Int) ≤ 2 ^ 63) :
    parseI64 ('-' :: s) = some (-(digitsVal s : Int)) := by
  unfold parseI64
  split
  next rest2 heq =>
    injection heq with _ hh
    subst hh
    rw [if_pos ⟨h1, h2⟩, if_pos h3]
  next hno =>
    exact absurd rfl (hno s)

theorem allDigits_mem (l : List Char) (h : allDigits l = true) :
    ∀ x ∈ l, isAsciiDigit x = true := by
  simpa [allDigits, List.all_eq_true] using h

theorem parseF64Mag_digits (a b : List Char) (ha : a ≠ []) (haD : allDigits a = true)
    (hb : b ≠ []) (hbD : allDigits b = true) :
    parseF64Mag (a ++ '.' :: b)
      = some ((digitsVal a : Rat) + (digitsVal b : Rat) / ((10 : Rat) ^ b.length)) := by
  have htw : (a ++ '.' :: b).takeWhile isAsciiDigit = a :=
    takeWhile_all_append isAsciiDigit a ('.' :: b) (allDigits_mem a haD) (by rfl)
  simp only [parseF64Mag, htw, List.drop_left]
  rw [if_pos ⟨ha, hb, hbD⟩]

theorem parseF64_digits (a b : List Char) (ha : a ≠ []) (haD : allDigits a = true)
    (hb : b ≠ []) (hbD : allDigits b = true) :
    parseF64 (a ++ '.' :: b)
      = some ((digitsVal a : Rat) + (digitsVal b : Rat) / ((10 : Rat) ^ b.length)) := by
  cases a with
  | nil => exact absurd rfl ha
  | cons c arest =>
    have hc : c ≠ '-' := by
      intro he
      subst he
      simp [allDigits, isAsciiDigit] at haD
    unfold parseF64
    split
    next rest2 heq =>
      rw [List.cons_append] at heq
      simp only [List.cons.injEq] at heq
      exact absurd heq.1 hc
    next hno => exact parseF64Mag_digits (c :: arest) b ha haD hb hbD

theorem number_int_spec (l : List Char) (st : ScanSt) (v : Int) (hall : allDigits l = true)
    (hv : parseI64 (st.cur_lexeme ++ l) = some v) :
    (number l st).1 = .ok (.IntegerLiteral v)
    ∧ (number l st).2.1 = []
    ∧ (number l st).2.2.cur_lexeme = st.cur_lexeme ++ l := by
  have haw := advance_while_all_append isAsciiDigit l [] st (allDigits_mem l hall) (by rfl)
  rw [List.append_nil] at haw
  obtain ⟨haw1, haw2⟩ := haw
  simp only [number]
  split
  next s t heq =>
    rw [haw1] at heq
    simp [advance_if_match] at heq
  next s t heq =>
    rw [haw1] at heq
    simp only [advance_if_match, Prod.mk.injEq, true_and] at heq
    obtain ⟨hs, ht⟩ := heq
    subst ht
    subst hs
    rw [haw2, hv]
    exact ⟨rfl, rfl, haw2⟩

theorem number_real_spec (a b : List Char) (st : ScanSt) (q : Rat)
    (haD : allDigits a = true) (hb : b ≠ []) (hbD : allDigits b = true)
    (hq : parseF64 ((st.cur_lexeme ++ a) ++ '.' :: b) = some q) :
    (number (a ++ '.' :: b) st).1 = .ok (.RealLiteral q)
    ∧ (number (a ++ '.' :: b) st).2.1 = []
    ∧ (number (a ++ '.' :: b) st).2.2.cur_lexeme = (st.cur_lexeme ++ a) ++ '.' :: b := by
  have haw := advance_while_all_append isAsciiDigit a ('.' :: b) st
    (allDigits_mem a haD) (by rfl)
  obtain ⟨haw1, haw2⟩ := haw
  simp only [number]
  split
  next s t heq =>
    rw [haw1] at heq
    rw [show advance_if_match '.' ('.' :: b) (advance_while isAsciiDigit (a ++ '.' :: b) st).2
          = (true, b, consumeChar '.' (advance_while isAsciiDigit (a ++ '.' :: b) st).2)
        from rfl] at heq
    simp only [Prod.mk.injEq, true_and] at heq
    obtain ⟨hs, ht⟩ := heq
    subst hs
    subst ht
    have hcn : check_next isAsciiDigit b = true := by
      cases b with
      | nil => exact absurd rfl hb
      | cons e es => exact allDigits_mem _ hbD e (by simp)
    rw [if_pos hcn]
    have haw3 := advance_while_all_append isAsciiDigit b []
      (consumeChar '.' (advance_while isAsciiDigit (a ++ '.' :: b) st).2)
      (allDigits_mem b hbD) (by rfl)
    rw [List.append_nil] at haw3
    obtain ⟨haw31, haw32⟩ := haw3
    have hlex : (advance_while isAsciiDigit b
        (consumeChar '.' (advance_while isAsciiDigit (a ++ '.' :: b) st).2)).2.cur_lexeme
        = (st.cur_lexeme ++ a) ++ '.' :: b := by
      rw [haw32]
      simp only [consumeChar, haw2]
      simp
    split
    next q2 heq2 =>
      rw [hlex, hq] at heq2
      simp only [Option.some.injEq] at heq2
      subst heq2
      exact ⟨rfl, by rw [haw31], by rw [hlex]⟩
    next heq2 =>
      rw [hlex, hq] at heq2
      exact absurd heq2 (by simp)
  next s t heq =>
    rw [haw1] at heq
    simp [advance_if_match] at heq

/-- Claim C3 counterexample: the 19-digit run 9999999999999999999 is an
accepted integer lexeme, but its value exceeds the 64-bit signed maximum
9223372036854775807, so str::parse::<i64>().unwrap() panics instead of
returning an IntegerLiteral token; the whole scan dies with it. -/
theorem c3_counterexample :
    (scan_next (List.replicate 19 '9') ⟨[], Location.new⟩).map (fun r => r.1) = some .panicked
    ∧ scan (List.replicate 19 '9') = none :=
  ⟨rfl, rfl⟩

/-- Claim C3 amended: for every accepted digit run whose decimal value
fits in the 64-bit signed integer range, the number routine returns the
IntegerLiteral token with that value and the full lexeme (similarly for
the merged leading minus within the negative range), and for every
accepted real lexeme (digits, one point, digits) it returns a RealLiteral
token with the lexeme's decimal value; conversion only panics on 64-bit
integer overflow. -/
theorem c3_amended (ds : List Char) (h1 : ds ≠ []) (h2 : allDigits ds = true) :
    ((digitsVal ds : Int) ≤ 2 ^ 63 - 1 →
      (scan_next ds ⟨[], Location.new⟩).map (fun r => r.1)
        = some (.tok ⟨.IntegerLiteral ((digitsVal ds : Int)), ds, Location.new⟩))
    ∧ ((digitsVal ds : Int) ≤ 2 ^ 63 →
      (scan_next ('-' :: ds) ⟨[], Location.new⟩).map (fun r => r.1)
        = some (.tok ⟨.IntegerLiteral (-(digitsVal ds : Int)), '-' :: ds, Location.new⟩))
    ∧ (∀ ds₂ : List Char, ds₂ ≠ [] → allDigits ds₂ = true →
      (scan_next (ds ++ '.' :: ds₂) ⟨[], Location.new⟩).map (fun r => r.1)
        = some (.tok ⟨.RealLiteral ((digitsVal ds : Rat)
              + (digitsVal ds₂ : Rat) / ((10 : Rat) ^ ds₂.length)),
            ds ++ '.' :: ds₂, Location.new⟩)) := by
  cases ds with
  | nil => exact absurd rfl h1
  | cons d rest =>
    have hd : isAsciiDigit d = true := allDigits_mem _ h2 d (by simp)
    have hrest : allDigits rest = true := by
      simp only [allDigits, List.all_cons, Bool.and_eq_true] at h2
      exact h2.2
    refine ⟨?_, ?_, ?_⟩
    · intro h3
      have hv : parseI64 ((consumeChar d ⟨[], Location.new⟩).cur_lexeme ++ rest)
          = some ((digitsVal (d :: rest) : Int)) := by
        simp only [consumeChar, List.nil_append, List.singleton_append]
        exact parseI64_pos_digits (d :: rest) (by simp) h2 h3
      obtain ⟨hs1, hs2, hs3⟩ :=
        number_int_spec rest (consumeChar d ⟨[], Location.new⟩) (digitsVal (d :: rest)) hrest hv
      simp only [scan_next, advance]
      rw [digit_scan_dispatch d hd rest (consumeChar d ⟨[], Location.new⟩)]
      split
      next tt s2 t2 heq =>
        rw [heq] at hs1 hs2 hs3
        simp only at hs1 hs2 hs3
        simp only [LexOut.ok.injEq] at hs1
        subst hs1
        subst hs2
        simp only [consumeChar, List.nil_append, List.singleton_append] at hs3
        simp only [Option.map_some']
        rw [hs3]
        all_goals rfl
      next e s2 t2 heq =>
        rw [heq] at hs1
        simp at hs1
      next s2 t2 heq =>
        rw [heq] at hs1
        simp at hs1
    · intro h3
      have hv : parseI64 ((consumeChar '-' ⟨[], Location.new⟩).cur_lexeme ++ (d :: rest))
          = some (-(digitsVal (d :: rest) : Int)) := by
        simp only [consumeChar, List.nil_append, List.singleton_append]
        exact parseI64_neg_digits (d :: rest) (by simp) h2 h3
      obtain ⟨hs1, hs2, hs3⟩ :=
        number_int_spec (d :: rest) (consumeChar '-' ⟨[], Location.new⟩)
          (-(digitsVal (d :: rest) : Int)) h2 hv
      simp only [scan_next, advance]
      rw [show scan_dispatch '-' (d :: rest) (consumeChar '-' ⟨[], Location.new⟩)
            = if check_next isAsciiDigit (d :: rest) = true
              then number (d :: rest) (consumeChar '-' ⟨[], Location.new⟩)
              else (.ok .Minus, d :: rest, consumeChar '-' ⟨[], Location.new⟩) from rfl]
      rw [if_pos (show check_next isAsciiDigit (d :: rest) = true from hd)]
      split
      next tt s2 t2 heq =>
        rw [heq] at hs1 hs2 hs3
        simp only at hs1 hs2 hs3
        simp only [LexOut.ok.injEq] at hs1
        subst hs1
        subst hs2
        simp only [consumeChar, List.nil_append, List.singleton_append] at hs3
        simp only [Option.map_some']
        rw [hs3]
        all_goals rfl
      next e s2 t2 heq =>
        rw [heq] at hs1
        simp at hs1
      next s2 t2 heq =>
        rw [heq] at hs1
        simp at hs1
    · intro ds₂ hb hbD
      have hq : parseF64 (((consumeChar d ⟨[], Location.new⟩).cur_lexeme ++ rest) ++ '.' :: ds₂)
          = some ((digitsVal (d :: rest) : Rat)
              + (digitsVal ds₂ : Rat) / ((10 : Rat) ^ ds₂.length)) := by
        simp only [consumeChar, List.nil_append, List.singleton_append]
        exact parseF64_digits (d :: rest) ds₂ (by simp) h2 hb hbD
      obtain ⟨hs1, hs2, hs3⟩ :=
        number_real_spec rest ds₂ (consumeChar d ⟨[], Location.new⟩)
          ((digitsVal (d :: rest) : Rat) + (digitsVal ds₂ : Rat) / ((10 : Rat) ^ ds₂.length))
          hrest hb hbD hq
      simp only [scan_next, advance, List.cons_append]
      rw [digit_scan_dispatch d hd (rest ++ '.' :: ds₂) (consumeChar d ⟨[], Location.new⟩)]
      split
      next tt s2 t2 heq =>
        rw [heq] at hs1 hs2 hs3
        simp only at hs1 hs2 hs3
        simp only [LexOut.ok.injEq] at hs1
        subst hs1
        subst hs2
        simp only [consumeChar, List.nil_append, List.singleton_append] at hs3
        simp only [Option.map_some']
        rw [hs3]
        all_goals rfl
      next e s2 t2 heq =>
        rw [heq] at hs1
        simp at hs1
      next s2 t2 heq =>
        rw [heq] at hs1
        simp at hs1

/-- Claim C3 witness: the digit run 42 scans to the integer literal 42. -/
theorem c3_witness :
    (scan_next ['4', '2'] ⟨[], Location.new⟩).map (fun r => r.1)
      = some (.tok ⟨.IntegerLiteral ((digitsVal ['4', '2'] : Int)), ['4', '2'], Location.new⟩) :=
  (c3_amended ['4', '2'] (by decide) (by decide)).1 (by decide)
